import Mathlib

/-!
Verification of the quadrant-planner-server task/position/staging/scoring
subsystem. The definitions below are a shallow embedding of
`src/api/tasks/service.py`, `src/api/goals/service.py` and
`src/api/analytics/service.py`: the external Postgres store is modelled as a
list of rows, identifier and timestamp columns are abstracted to naturals,
positions are integers, and each service method becomes a pure function from
the pre-state to an `Except` result carrying the returned row and post-state.
-/

namespace QuadrantPlanner

/-- Task quadrant enumeration (`database/models.py`, `TaskQuadrant`):
the four Eisenhower quadrants plus the staging zone. -/
inductive Quadrant where
  | q1
  | q2
  | q3
  | q4
  | staging
deriving DecidableEq

/-- One row of the `tasks` table, restricted to the columns the position,
staging and completion logic of `TasksService` reads or writes. Identifier
and timestamp columns are abstracted to naturals; `position` is an integer
column. Scalar columns that no modelled branch inspects (title, description,
priority, tags, due date, estimated minutes) are omitted: they are copied
through every modelled operation unchanged. -/
structure TaskRow where
  id : Nat
  userId : Nat
  goalId : Option Nat
  quadrant : Quadrant
  position : Int
  completed : Bool
  isStaged : Bool
  stagedAt : Option Nat
  organizedAt : Option Nat
  completedAt : Option Nat
  updatedAt : Nat
deriving DecidableEq

/-- One row of the `goals` table, restricted to the columns
`GoalsService.delete_goal` touches. -/
structure GoalRow where
  id : Nat
  userId : Nat
  archived : Bool
  updatedAt : Nat
deriving DecidableEq

/-- Error taxonomy of `api/shared/exceptions.py`, restricted to the
constructors the modelled service methods raise. -/
inductive ServiceError where
  | notFound
  | conflict (msg : String)
  | databaseError (msg : String)
deriving DecidableEq

/-- Creation payload (`TaskCreate`, `tasks/models.py`). The Pydantic model
has no `position` field, so `model_dump` never produces a `position` key and
`create_task`'s `"position" not in insert_data` test is always true. -/
structure TaskCreate where
  quadrant : Quadrant
  goalId : Option Nat
deriving DecidableEq

/-- Update payload (`TaskUpdate`, `tasks/models.py`), restricted to the
fields the modelled columns depend on. `none` models a field that is absent
from `update_data` after the `v is not None` filter in
`TasksService.update_task`. -/
structure TaskUpdate where
  quadrant : Option Quadrant
  completed : Option Bool
  position : Option Int
deriving DecidableEq

/-- Move payload (`TaskMove`, `tasks/models.py:254-267`). The model accepts
an optional `isStaged` flag, but `TasksService.move_task` never reads it. -/
structure TaskMove where
  quadrant : Quadrant
  position : Int
  isStaged : Option Bool
deriving DecidableEq

/-- `TasksService._count_user_tasks`: count of all rows owned by the user. -/
def countUserTasks (u : Nat) (tasks : List TaskRow) : Nat :=
  (tasks.filter (fun r => decide (r.userId = u))).length

/-- `TasksService._count_staging_tasks`: count of the user's non-completed
rows whose quadrant is `staging`. -/
def countStagingTasks (u : Nat) (tasks : List TaskRow) : Nat :=
  (tasks.filter (fun r =>
    decide (r.userId = u ∧ r.quadrant = Quadrant.staging ∧ r.completed = false))).length

/-- `TasksService._get_next_position`: the query selects the user's rows in
the quadrant ordered by position descending with limit 1; on a hit it
returns that top position plus one, otherwise 0. The head of the
descending-ordered result is the maximum position of the partition. -/
def nextPosition (u : Nat) (q : Quadrant) (tasks : List TaskRow) : Int :=
  match (tasks.filter (fun r => decide (r.userId = u ∧ r.quadrant = q))).map (·.position) with
  | [] => 0
  | p :: ps => ps.foldl max p + 1

/-- `TasksService._validate_goal_ownership`: the goal row must exist with the
given id and owner. -/
def goalOwned (g : Nat) (u : Nat) (goals : List GoalRow) : Bool :=
  !(goals.filter (fun r => decide (r.id = g ∧ r.userId = u))).isEmpty

/-- Goal validation step of `create_task`/`update_task`: it only runs when a
goal id was supplied. -/
def goalCheckFails (gid : Option Nat) (u : Nat) (goals : List GoalRow) : Bool :=
  match gid with
  | some g => !goalOwned g u goals
  | none => false

/-- `get_task_by_id` essence: the first stored row matching the task id and
the owner, `none` meaning the service raises `NotFoundError`. -/
def findTask (tid u : Nat) (tasks : List TaskRow) : Option TaskRow :=
  (tasks.filter (fun r => decide (r.id = tid ∧ r.userId = u))).head?

/-- `TasksService.create_task` (`tasks/service.py:162-226`): enforce the
1000-task ceiling, then the staging capacity guard, then goal ownership;
position is always `_get_next_position` (the payload cannot carry one);
`is_staged`/`staged_at` are derived from the target quadrant; the row is
inserted with store defaults (`completed=false`, null timestamps).
`createdRow` is the row the INSERT produces; `createTask` is the method. -/
def createdRow (tc : TaskCreate) (u newId now : Nat) (tasks : List TaskRow) : TaskRow :=
  { id := newId
    userId := u
    goalId := tc.goalId
    quadrant := tc.quadrant
    position := nextPosition u tc.quadrant tasks
    completed := false
    isStaged := decide (tc.quadrant = Quadrant.staging)
    stagedAt := if tc.quadrant = Quadrant.staging then some now else none
    organizedAt := none
    completedAt := none
    updatedAt := now }

def createTask (tc : TaskCreate) (u newId now : Nat)
    (tasks : List TaskRow) (goals : List GoalRow) :
    Except ServiceError (TaskRow × List TaskRow) :=
  if 1000 ≤ countUserTasks u tasks then
    .error (.conflict "Maximum of 1000 tasks allowed per user")
  else if tc.quadrant = Quadrant.staging ∧ 5 ≤ countStagingTasks u tasks then
    .error (.conflict "Staging zone is full (maximum 5 items)")
  else if goalCheckFails tc.goalId u goals then
    .error .notFound
  else
    .ok (createdRow tc u newId now tasks, tasks ++ [createdRow tc u newId now tasks])

/-- Patch applied by the single UPDATE statement of
`TasksService.update_task` (`tasks/service.py:252-289`): scalar fields from
`update_data`, staging bookkeeping on a quadrant change (entering staging
sets `is_staged`/`staged_at` only; leaving sets `is_staged`/`organized_at`
only), completion bookkeeping, and `updated_at`. `t` is the pre-existing
task used for the old-value comparisons. -/
def updatePatch (tu : TaskUpdate) (t : TaskRow) (now : Nat) (r : TaskRow) : TaskRow :=
  let r1 := match tu.position with
    | some p => { r with position := p }
    | none => r
  let r2 := match tu.quadrant with
    | some nq =>
      let rq := { r1 with quadrant := nq }
      if nq = Quadrant.staging ∧ t.quadrant ≠ Quadrant.staging then
        { rq with isStaged := true, stagedAt := some now }
      else if nq ≠ Quadrant.staging ∧ t.quadrant = Quadrant.staging then
        { rq with isStaged := false, organizedAt := some now }
      else rq
    | none => r1
  let r3 := match tu.completed with
    | some c =>
      let rc := { r2 with completed := c }
      if c = true ∧ t.completed = false then { rc with completedAt := some now }
      else if c = false ∧ t.completed = true then { rc with completedAt := none }
      else rc
    | none => r2
  { r3 with updatedAt := now }

/-- State after `update_task`'s single UPDATE statement: the patch applied
to the rows matching the task id and owner. -/
def updatedTasks (tid : Nat) (tu : TaskUpdate) (u now : Nat) (t : TaskRow)
    (tasks : List TaskRow) : List TaskRow :=
  tasks.map (fun r => if r.id = tid ∧ r.userId = u then updatePatch tu t now r else r)

/-- `TasksService.update_task` (`tasks/service.py:228-322`): look the task
up, return it unchanged when every updatable field is absent, apply the
staging capacity guard only on a non-staging-to-staging quadrant change,
then issue one UPDATE on the matching row and return the updated row. -/
def updateTask (tid : Nat) (tu : TaskUpdate) (u now : Nat) (tasks : List TaskRow) :
    Except ServiceError (TaskRow × List TaskRow) :=
  match findTask tid u tasks with
  | none => .error .notFound
  | some t =>
    if tu.quadrant = none ∧ tu.completed = none ∧ tu.position = none then
      .ok (t, tasks)
    else if (match tu.quadrant with
             | some nq => decide (nq = Quadrant.staging ∧ t.quadrant ≠ Quadrant.staging ∧
                 5 ≤ countStagingTasks u tasks)
             | none => false) then
      .error (.conflict "Staging zone is full (maximum 5 items)")
    else
      .ok (updatePatch tu t now t, updatedTasks tid tu u now t tasks)

/-- One positional row write issued by the reorder/compaction loops: an
UPDATE of `position` and `updated_at` filtered on the row id and owner. -/
def applyPosUpdate (u now : Nat) (tasks : List TaskRow) (w : Nat × Int) : List TaskRow :=
  tasks.map (fun r =>
    if r.id = w.1 ∧ r.userId = u then { r with position := w.2, updatedAt := now } else r)

/-- The sequence of independent positional writes issued by a loop, applied
in order. -/
def applyPosUpdates (u now : Nat) (tasks : List TaskRow) (ws : List (Nat × Int)) : List TaskRow :=
  ws.foldl (applyPosUpdate u now) tasks

/-- Snapshot read by `_reorder_tasks_in_quadrant`: the user's rows in the
quadrant excluding the moved task, ordered by position. -/
def reorderSnapshot (u : Nat) (q : Quadrant) (movedId : Nat) (tasks : List TaskRow) : List TaskRow :=
  (tasks.filter (fun r => decide (r.userId = u ∧ r.quadrant = q ∧ r.id ≠ movedId))).mergeSort
    (fun a b => decide (a.position ≤ b.position))

/-- `TasksService._reorder_tasks_in_quadrant` (`tasks/service.py:615-639`):
shift every snapshot row at or after the new position up by one, one write
per row. `fail = true` models the store raising inside the helper; its
`except` clause logs and swallows the error, leaving the state as it was. -/
def reorderTasksInQuadrant (u : Nat) (q : Quadrant) (movedId : Nat) (newPos : Int)
    (now : Nat) (fail : Bool) (tasks : List TaskRow) : List TaskRow :=
  if fail then tasks
  else
    applyPosUpdates u now tasks
      ((reorderSnapshot u q movedId tasks).filterMap (fun r =>
        if newPos ≤ r.position then some (r.id, r.position + 1) else none))

/-- Snapshot read by `_compact_positions_in_quadrant`: the user's rows in
the quadrant ordered by position ascending. -/
def compactSnapshot (u : Nat) (q : Quadrant) (tasks : List TaskRow) : List TaskRow :=
  (tasks.filter (fun r => decide (r.userId = u ∧ r.quadrant = q))).mergeSort
    (fun a b => decide (a.position ≤ b.position))

/-- Writes issued by the compaction loop: `enumerate` over the ascending
snapshot, writing back `position := index` only for rows whose position
differs from their index. -/
def compactWrites (u : Nat) (q : Quadrant) (tasks : List TaskRow) : List (Nat × Int) :=
  (compactSnapshot u q tasks).enum.filterMap (fun p =>
    if p.2.position = (p.1 : Int) then none else some (p.2.id, (p.1 : Int)))

/-- `TasksService._compact_positions_in_quadrant` (`tasks/service.py:641-665`):
reassign positions 0..n-1 in ascending-position order, writing only changed
rows. `fail = true` models the store raising inside the helper; the error is
logged and swallowed. -/
def compactPositionsInQuadrant (u : Nat) (q : Quadrant) (now : Nat) (fail : Bool)
    (tasks : List TaskRow) : List TaskRow :=
  if fail then tasks
  else applyPosUpdates u now tasks (compactWrites u q tasks)

/-- Patch applied by the single UPDATE statement of `TasksService.move_task`
(`tasks/service.py:415-431`): target quadrant and position, `updated_at`,
and staging bookkeeping — entering staging sets `is_staged`/`staged_at` and
clears `organized_at`; leaving staging sets `is_staged`/`organized_at` and
clears `staged_at`. -/
def movePatch (src tgt : Quadrant) (pos : Int) (now : Nat) (r : TaskRow) : TaskRow :=
  let r1 := { r with quadrant := tgt, position := pos, updatedAt := now }
  if tgt = Quadrant.staging ∧ src ≠ Quadrant.staging then
    { r1 with isStaged := true, stagedAt := some now, organizedAt := none }
  else if tgt ≠ Quadrant.staging ∧ src = Quadrant.staging then
    { r1 with isStaged := false, organizedAt := some now, stagedAt := none }
  else r1

/-- State after `move_task`'s primary UPDATE statement: the move patch
applied to the rows matching the task id and owner. -/
def movePatchedTasks (tid : Nat) (mv : TaskMove) (u now : Nat) (t : TaskRow)
    (tasks : List TaskRow) : List TaskRow :=
  tasks.map (fun r =>
    if r.id = tid ∧ r.userId = u then movePatch t.quadrant mv.quadrant mv.position now r else r)

/-- Final state of `move_task` after the primary UPDATE: the source quadrant
is compacted when the quadrant changed, then the target quadrant is
reordered (both best-effort, modelled by the two failure flags). -/
def moveFinalTasks (tid : Nat) (mv : TaskMove) (u now : Nat)
    (compactFail reorderFail : Bool) (t : TaskRow) (tasks : List TaskRow) : List TaskRow :=
  reorderTasksInQuadrant u mv.quadrant tid mv.position now reorderFail
    (if t.quadrant ≠ mv.quadrant then
      compactPositionsInQuadrant u t.quadrant now compactFail (movePatchedTasks tid mv u now t tasks)
    else movePatchedTasks tid mv u now t tasks)

/-- `TasksService.move_task` (`tasks/service.py:399-467`): look the task up,
apply the staging capacity guard on a non-staging-to-staging transition,
issue the primary UPDATE, compact the source quadrant when the quadrant
changed, reorder the target quadrant, and return the row produced by the
primary UPDATE. `compactFail`/`reorderFail` model store errors inside the
two best-effort helpers, which swallow them. -/
def moveTask (tid : Nat) (mv : TaskMove) (u now : Nat)
    (compactFail reorderFail : Bool) (tasks : List TaskRow) :
    Except ServiceError (TaskRow × List TaskRow) :=
  match findTask tid u tasks with
  | none => .error .notFound
  | some t =>
    if mv.quadrant = Quadrant.staging ∧ t.quadrant ≠ Quadrant.staging ∧
        5 ≤ countStagingTasks u tasks then
      .error (.conflict "Staging zone is full (maximum 5 items)")
    else
      .ok (movePatch t.quadrant mv.quadrant mv.position now t,
        moveFinalTasks tid mv u now compactFail reorderFail t tasks)

/-- `GoalsService.delete_goal` (`goals/service.py:275-311`) together with
its cleanup `_handle_goal_deletion` (`goals/service.py:410-425`): verify the
goal exists, archive it (soft delete), then best-effort null the goal
reference of the user's tasks pointing at it. `cleanupFail = true` models
the store raising inside `_handle_goal_deletion`; the error is logged and
swallowed and the archival stands. -/
def deleteGoal (gid u now : Nat) (cleanupFail : Bool)
    (goals : List GoalRow) (tasks : List TaskRow) :
    Except ServiceError (Bool × List GoalRow × List TaskRow) :=
  if (goals.filter (fun r => decide (r.id = gid ∧ r.userId = u))).isEmpty then
    .error .notFound
  else
    let goals1 := goals.map (fun r =>
      if r.id = gid ∧ r.userId = u then { r with archived := true, updatedAt := now } else r)
    let tasks1 := if cleanupFail then tasks
      else tasks.map (fun r =>
        if r.goalId = some gid ∧ r.userId = u then { r with goalId := none, updatedAt := now } else r)
    .ok (true, goals1, tasks1)

/-- One row of the `calculate_productivity_score` RPC result read by
`AnalyticsService.calculate_productivity_score`
(`analytics/service.py:402-436`). Every column is nullable; score columns
are numeric (modelled as rationals — the wrapper only null-coalesces them,
it performs no arithmetic). -/
structure ScoreRpcRow where
  overallScore : Option ℚ
  goalCompletionScore : Option ℚ
  taskCompletionScore : Option ℚ
  quadrantBalanceScore : Option ℚ
  consistencyScore : Option ℚ
  stagingEfficiencyScore : Option ℚ
  scoreTrend : Option String
  recommendations : Option (List String)
deriving DecidableEq

/-- `UserProductivityScore` response model (`analytics/models.py`). -/
structure UserProductivityScore where
  overallScore : ℚ
  goalCompletionScore : ℚ
  taskCompletionScore : ℚ
  quadrantBalanceScore : ℚ
  consistencyScore : ℚ
  stagingEfficiencyScore : ℚ
  scoreTrend : String
  recommendations : List String
deriving DecidableEq

/-- Python `x or 0.0` on a nullable numeric column: `None` and `0.0` are the
falsy values, so both map to `0.0`. -/
def orZero (x : Option ℚ) : ℚ :=
  match x with
  | none => 0
  | some v => if v = 0 then 0 else v

/-- Python `x or "stable"` on a nullable text column: `None` and the empty
string are falsy. -/
def orStable (x : Option String) : String :=
  match x with
  | none => "stable"
  | some s => if s = "" then "stable" else s

/-- Python `x or []` on a nullable array column: `None` and the empty list
are falsy. -/
def orEmptyList (x : Option (List String)) : List String :=
  match x with
  | none => []
  | some l => if l = [] then [] else l

/-- Recommendation emitted for a user whose score RPC returns no rows. -/
def createGoalMsg : String := "Create your first goal to start tracking productivity"

/-- `AnalyticsService.calculate_productivity_score`
(`analytics/service.py:402-436`): when the RPC result has a first row, each
nullable column is coalesced with a zero/empty default; when the result is
null or empty, a fixed all-zero report with the create-your-first-goal
recommendation is returned. -/
def calculateProductivityScore (rpcData : Option (List ScoreRpcRow)) : UserProductivityScore :=
  match rpcData with
  | some (d :: _) =>
    { overallScore := orZero d.overallScore
      goalCompletionScore := orZero d.goalCompletionScore
      taskCompletionScore := orZero d.taskCompletionScore
      quadrantBalanceScore := orZero d.quadrantBalanceScore
      consistencyScore := orZero d.consistencyScore
      stagingEfficiencyScore := orZero d.stagingEfficiencyScore
      scoreTrend := orStable d.scoreTrend
      recommendations := orEmptyList d.recommendations }
  | _ =>
    { overallScore := 0
      goalCompletionScore := 0
      taskCompletionScore := 0
      quadrantBalanceScore := 0
      consistencyScore := 0
      stagingEfficiencyScore := 0
      scoreTrend := "stable"
      recommendations := [createGoalMsg] }

/-- Quadrant share percentages (`QuadrantDistribution`,
`analytics/models.py`), as consumed by `get_quadrant_analysis`. -/
structure QuadrantDistribution where
  q1Percentage : ℚ
  q2Percentage : ℚ
  q3Percentage : ℚ
  q4Percentage : ℚ
  stagingPercentage : ℚ
deriving DecidableEq

/-- Recommendation text for an excessive Q1 share. -/
def q1Msg : String := "You have too many urgent+important tasks. Focus on prevention and planning."

/-- Recommendation text for an insufficient Q2 share. -/
def q2Msg : String := "Increase focus on important but not urgent tasks (Q2) for better long-term results."

/-- Recommendation text for an excessive Q3 share. -/
def q3Msg : String := "Too many urgent but unimportant tasks. Consider delegation or elimination."

/-- Recommendation text for an excessive Q4 share. -/
def q4Msg : String := "Reduce time-wasting activities in Q4. Focus energy elsewhere."

/-- Recommendation text for an excessive staging share. -/
def stagingMsg : String := "High staging utilization. Process staged items into appropriate quadrants."

/-- Affirmation emitted when no threshold rule triggers. -/
def balanceMsg : String := "Great quadrant balance! Maintain this distribution for optimal productivity."

/-- Recommendation generation of `AnalyticsService.get_quadrant_analysis`
(`analytics/service.py:438-483`): five independent threshold rules append
their message in a fixed order; when none triggered, a single affirmation
message is emitted. -/
def quadrantRecommendations (d : QuadrantDistribution) : List String :=
  let recs : List String := []
  let recs := if d.q1Percentage > 30 then recs ++ [q1Msg] else recs
  let recs := if d.q2Percentage < 40 then recs ++ [q2Msg] else recs
  let recs := if d.q3Percentage > 25 then recs ++ [q3Msg] else recs
  let recs := if d.q4Percentage > 10 then recs ++ [q4Msg] else recs
  let recs := if d.stagingPercentage > 20 then recs ++ [stagingMsg] else recs
  if recs = [] then [balanceMsg] else recs

/-- Association lookup on the write lists, used to characterise the net
effect of a sequence of independent positional writes. -/
def findPos (x : Nat) : List (Nat × Int) → Option Int
  | [] => none
  | w :: ws => if w.1 = x then some w.2 else findPos x ws

/-- Concrete task row builder for the example databases below: a
non-completed row with store-default timestamps. -/
def mkRow (i u : Nat) (q : Quadrant) (pos : Int) : TaskRow :=
  { id := i
    userId := u
    goalId := none
    quadrant := q
    position := pos
    completed := false
    isStaged := decide (q = Quadrant.staging)
    stagedAt := if q = Quadrant.staging then some 0 else none
    organizedAt := none
    completedAt := none
    updatedAt := 0 }

/-- Example database: user 7 holds three Q1 tasks at positions 0, 1, 2. -/
def demoQ1Tasks : List TaskRow :=
  [mkRow 1 7 Quadrant.q1 0, mkRow 2 7 Quadrant.q1 1, mkRow 3 7 Quadrant.q1 2]

/-- Example database: user 7 holds exactly five non-completed staging
tasks. -/
def demoStagingFull : List TaskRow :=
  [mkRow 1 7 Quadrant.staging 0, mkRow 2 7 Quadrant.staging 1,
   mkRow 3 7 Quadrant.staging 2, mkRow 4 7 Quadrant.staging 3,
   mkRow 5 7 Quadrant.staging 4]

/-- Example database: a Q1 task of user 7 that was once organized out of
staging (`organized_at` is set), plus a staging task that was staged at
time 3. -/
def demoHistoryTasks : List TaskRow :=
  [{ mkRow 1 7 Quadrant.q1 0 with organizedAt := some 5 },
   { mkRow 2 7 Quadrant.staging 0 with stagedAt := some 3 }]

/-- Example database: user 7 has Q2 tasks at positions 0, 2, 3 (a gap left
by an earlier removal) and Q1 tasks at positions 0 and 1. -/
def demoMoveTasks : List TaskRow :=
  [mkRow 1 7 Quadrant.q2 0, mkRow 2 7 Quadrant.q2 2, mkRow 3 7 Quadrant.q2 3,
   mkRow 4 7 Quadrant.q1 0, mkRow 5 7 Quadrant.q1 1]

/-- Row produced by creating a Q1 task for user 7 on `demoQ1Tasks` with new
id 9 at time 10: it is appended at the end of the quadrant, position 3. -/
def demoCreatedRow : TaskRow :=
  { mkRow 9 7 Quadrant.q1 3 with updatedAt := 10 }

/-- Row produced by updating task 1 of `demoQ1Tasks` into staging at
time 10. -/
def demoUpdatedRow : TaskRow :=
  { mkRow 1 7 Quadrant.staging 0 with stagedAt := some 10, updatedAt := 10 }

/-- State of `demoQ1Tasks` after updating task 1 into staging at time 10. -/
def demoUpdatedTasks : List TaskRow :=
  [demoUpdatedRow, mkRow 2 7 Quadrant.q1 1, mkRow 3 7 Quadrant.q1 2]

/-- Row produced by updating task 1 of `demoHistoryTasks` into staging at
time 20: the stale `organized_at` from its earlier exit of staging is kept.
-/
def demoEnterStagingRow : TaskRow :=
  { mkRow 1 7 Quadrant.staging 0 with
      stagedAt := some 20, organizedAt := some 5, updatedAt := 20 }

/-- State of `demoHistoryTasks` after updating task 1 into staging at
time 20. -/
def demoEnterStagingTasks : List TaskRow :=
  [demoEnterStagingRow, { mkRow 2 7 Quadrant.staging 0 with stagedAt := some 3 }]

/-- Row produced by moving task 1 of `demoMoveTasks` from Q2 to Q1 at
position 1, time 50. -/
def demoMovedRow : TaskRow :=
  { mkRow 1 7 Quadrant.q1 1 with updatedAt := 50 }

/-- State of `demoMoveTasks` after moving task 1 from Q2 to Q1 at position
1, time 50: Q2 is compacted to positions 0, 1 and the Q1 task at position 1
is shifted to 2. -/
def demoMovedTasks : List TaskRow :=
  [demoMovedRow,
   { mkRow 2 7 Quadrant.q2 0 with updatedAt := 50 },
   { mkRow 3 7 Quadrant.q2 1 with updatedAt := 50 },
   mkRow 4 7 Quadrant.q1 0,
   { mkRow 5 7 Quadrant.q1 2 with updatedAt := 50 }]

/-- Example goal database: goal 3 owned by user 7, not archived. -/
def demoGoals : List GoalRow :=
  [{ id := 3, userId := 7, archived := false, updatedAt := 0 }]

/-- Example database: tasks of user 7 referencing goal 3. -/
def demoGoalTasks : List TaskRow :=
  [{ mkRow 1 7 Quadrant.q1 0 with goalId := some 3 },
   { mkRow 2 7 Quadrant.q2 0 with goalId := some 3 }]

/-! Basic helper lemmas. -/

theorem mem_of_head? {α : Type _} {l : List α} {a : α} (h : l.head? = some a) : a ∈ l := by
  cases l with
  | nil => simp at h
  | cons b t =>
    rw [List.head?_cons, Option.some_inj] at h
    subst h
    exact List.mem_cons_self _ _

theorem findTask_spec {tid u : Nat} {tasks : List TaskRow} {t : TaskRow}
    (h : findTask tid u tasks = some t) : t ∈ tasks ∧ t.id = tid ∧ t.userId = u := by
  unfold findTask at h
  have hm := mem_of_head? h
  rw [List.mem_filter] at hm
  have hp := of_decide_eq_true hm.2
  exact ⟨hm.1, hp.1, hp.2⟩

theorem le_foldl_max (l : List Int) (a : Int) : a ≤ l.foldl max a := by
  induction l generalizing a with
  | nil => exact le_refl a
  | cons b t ih =>
    rw [List.foldl_cons]
    exact le_trans (le_max_left a b) (ih (max a b))

theorem mem_le_foldl_max {x : Int} {l : List Int} (a : Int) (hx : x ∈ l) :
    x ≤ l.foldl max a := by
  induction l generalizing a with
  | nil => cases hx
  | cons b t ih =>
    rw [List.foldl_cons]
    rcases List.mem_cons.mp hx with rfl | hx'
    · exact le_trans (le_max_right a x) (le_foldl_max t (max a x))
    · exact ih (max a b) hx'

theorem lt_nextPosition {u : Nat} {q : Quadrant} {tasks : List TaskRow} {r : TaskRow}
    (hr : r ∈ tasks) (hu : r.userId = u) (hq : r.quadrant = q) :
    r.position < nextPosition u q tasks := by
  have hmem : r.position ∈
      ((tasks.filter (fun r => decide (r.userId = u ∧ r.quadrant = q))).map (·.position)) :=
    List.mem_map_of_mem _ (List.mem_filter.mpr ⟨hr, by simp [hu, hq]⟩)
  unfold nextPosition
  split
  · next heq => rw [heq] at hmem; cases hmem
  · next p ps heq =>
    rw [heq] at hmem
    rcases List.mem_cons.mp hmem with hp | hp
    · rw [hp]; have := le_foldl_max ps p; omega
    · have := mem_le_foldl_max p hp; omega

/-! Lemmas about `findPos` and the write lists. -/

theorem findPos_eq_none {x : Nat} {ws : List (Nat × Int)} (h : x ∉ ws.map Prod.fst) :
    findPos x ws = none := by
  induction ws with
  | nil => rfl
  | cons w t ih =>
    rw [List.map_cons, List.mem_cons] at h
    push_neg at h
    unfold findPos
    rw [if_neg (fun hh => h.1 hh.symm)]
    exact ih h.2

theorem keys_mem_of_mem_filterMap {l : List TaskRow} {f : TaskRow → Option (Nat × Int)}
    (hf : ∀ x w, f x = some w → w.1 = x.id) {w : Nat × Int} (hw : w ∈ l.filterMap f) :
    w.1 ∈ l.map (·.id) := by
  rcases List.mem_filterMap.mp hw with ⟨x, hx, hfx⟩
  rw [hf x w hfx]
  exact List.mem_map_of_mem _ hx

theorem keys_nodup_filterMap {l : List TaskRow} {f : TaskRow → Option (Nat × Int)}
    (hf : ∀ x w, f x = some w → w.1 = x.id) (hnd : (l.map (·.id)).Nodup) :
    ((l.filterMap f).map Prod.fst).Nodup := by
  induction l with
  | nil => simp
  | cons a t ih =>
    rw [List.map_cons, List.nodup_cons] at hnd
    rw [List.filterMap_cons]
    cases hfa : f a with
    | none => exact ih hnd.2
    | some w =>
      rw [List.map_cons, List.nodup_cons]
      refine ⟨fun hmem => ?_, ih hnd.2⟩
      rcases List.mem_map.mp hmem with ⟨w', hw', hple⟩
      have := keys_mem_of_mem_filterMap hf hw'
      rw [hple, hf a w hfa] at this
      exact hnd.1 this

theorem snd_mem_of_mem_enumFrom {α : Type _} {l : List α} {s : Nat} {p : Nat × α}
    (h : p ∈ l.enumFrom s) : p.2 ∈ l := by
  induction l generalizing s with
  | nil => cases h
  | cons a t ih =>
    rcases List.mem_cons.mp h with rfl | h'
    · exact List.mem_cons_self _ _
    · exact List.mem_cons_of_mem _ (ih h')

theorem keys_mem_of_mem_enumFilterMap {l : List TaskRow} {s : Nat}
    {f : Nat × TaskRow → Option (Nat × Int)}
    (hf : ∀ p w, f p = some w → w.1 = p.2.id) {w : Nat × Int}
    (hw : w ∈ (l.enumFrom s).filterMap f) : w.1 ∈ l.map (·.id) := by
  rcases List.mem_filterMap.mp hw with ⟨p, hp, hfp⟩
  rw [hf p w hfp]
  exact List.mem_map_of_mem _ (snd_mem_of_mem_enumFrom hp)

theorem keys_nodup_enumFilterMap {l : List TaskRow}
    {f : Nat × TaskRow → Option (Nat × Int)}
    (hf : ∀ p w, f p = some w → w.1 = p.2.id) (hnd : (l.map (·.id)).Nodup) :
    ∀ s : Nat, (((l.enumFrom s).filterMap f).map Prod.fst).Nodup := by
  induction l with
  | nil => intro s; simp
  | cons a t ih =>
    intro s
    rw [List.map_cons, List.nodup_cons] at hnd
    rw [show (a :: t).enumFrom s = (s, a) :: t.enumFrom (s + 1) from rfl,
      List.filterMap_cons]
    cases hfa : f (s, a) with
    | none => exact ih hnd.2 (s + 1)
    | some w =>
      rw [List.map_cons, List.nodup_cons]
      refine ⟨fun hmem => ?_, ih hnd.2 (s + 1)⟩
      rcases List.mem_map.mp hmem with ⟨w', hw', hple⟩
      have := keys_mem_of_mem_enumFilterMap hf hw'
      rw [hple, hf (s, a) w hfa] at this
      exact hnd.1 this

/-- A sequence of independent positional writes with pairwise-distinct
target ids acts like one simultaneous update: each row receives the write
keyed by its id, if any. -/
theorem applyPosUpdates_eq_map (u now : Nat) (ws : List (Nat × Int))
    (hnd : (ws.map Prod.fst).Nodup) (tasks : List TaskRow) :
    applyPosUpdates u now tasks ws = tasks.map (fun r =>
      match findPos r.id ws with
      | some p => if r.userId = u then { r with position := p, updatedAt := now } else r
      | none => r) := by
  induction ws generalizing tasks with
  | nil =>
    unfold applyPosUpdates
    rw [List.foldl_nil]
    have : tasks.map (fun r =>
        match findPos r.id ([] : List (Nat × Int)) with
        | some p => if r.userId = u then { r with position := p, updatedAt := now } else r
        | none => r) = tasks.map (fun r => r) := by
      exact List.map_congr_left (fun r _ => rfl)
    rw [this, List.map_id']
  | cons w t ih =>
    rw [List.map_cons, List.nodup_cons] at hnd
    unfold applyPosUpdates
    rw [List.foldl_cons]
    have step := ih hnd.2 (applyPosUpdate u now tasks w)
    unfold applyPosUpdates at step
    rw [step]
    unfold applyPosUpdate
    rw [List.map_map]
    refine List.map_congr_left (fun r _ => ?_)
    simp only [Function.comp_apply]
    by_cases hid : r.id = w.1
    · have hkey : findPos r.id (w :: t) = some w.2 := by
        show (if w.1 = r.id then some w.2 else findPos r.id t) = some w.2
        rw [if_pos hid.symm]
      have hnone : findPos r.id t = none := by
        refine findPos_eq_none ?_
        rw [hid]
        exact hnd.1
      by_cases huser : r.userId = u
      · rw [if_pos (show r.id = w.1 ∧ r.userId = u from ⟨hid, huser⟩)]
        simp [hkey, hnone, huser]
      · rw [if_neg (fun hc => huser hc.2)]
        simp [hkey, hnone, huser]
    · have hkey : findPos r.id (w :: t) = findPos r.id t := by
        show (if w.1 = r.id then some w.2 else findPos r.id t) = findPos r.id t
        rw [if_neg (fun hh => hid hh.symm)]
      rw [if_neg (fun hc => hid hc.1)]
      rw [hkey]

/-- Value of the write list built from a conditional bump over a snapshot
with pairwise-distinct ids: a snapshot row is written exactly when the
condition holds of it. -/
theorem findPos_condWrites {l : List TaskRow} (hnd : (l.map (·.id)).Nodup)
    (c : TaskRow → Prop) [DecidablePred c] (g : TaskRow → Int) {r : TaskRow} (hr : r ∈ l) :
    findPos r.id (l.filterMap (fun x => if c x then some (x.id, g x) else none)) =
      if c r then some (g r) else none := by
  induction l with
  | nil => cases hr
  | cons a t ih =>
    rw [List.map_cons, List.nodup_cons] at hnd
    rw [List.filterMap_cons]
    rcases List.mem_cons.mp hr with rfl | hr'
    · by_cases hc : c r
      · rw [if_pos hc, if_pos hc]
        unfold findPos
        rw [if_pos rfl]
      · rw [if_neg hc, if_neg hc]
        refine findPos_eq_none (fun hmem => ?_)
        rcases List.mem_map.mp hmem with ⟨w', hw', hple⟩
        have := keys_mem_of_mem_filterMap
          (f := fun x => if c x then some (x.id, g x) else none)
          (fun x w hx => by
            have hx' : (if c x then some (x.id, g x) else none) = some w := hx
            by_cases hcx : c x
            · rw [if_pos hcx, Option.some_inj] at hx'
              rw [← hx']
            · rw [if_neg hcx] at hx'; cases hx') hw'
        rw [hple] at this
        exact hnd.1 this
    · have hne : a.id ≠ r.id := by
        intro hh
        exact hnd.1 (hh ▸ List.mem_map_of_mem (·.id) hr')
      by_cases hc : c a
      · rw [if_pos hc]
        unfold findPos
        rw [if_neg hne]
        exact ih hnd.2 hr'
      · rw [if_neg hc]
        exact ih hnd.2 hr'

/-- Value of the compaction write list, offset version: the row at index `k`
of the snapshot is written position `s + k` exactly when its stored position
differs from that index. -/
theorem findPos_compactWritesFrom {l : List TaskRow} (hnd : (l.map (·.id)).Nodup)
    (s k : Nat) (hk : k < l.length) :
    findPos (l.get ⟨k, hk⟩).id ((l.enumFrom s).filterMap (fun p =>
        if p.2.position = (p.1 : Int) then none else some (p.2.id, (p.1 : Int)))) =
      if (l.get ⟨k, hk⟩).position = ((s + k : Nat) : Int) then none
      else some ((s + k : Nat) : Int) := by
  induction l generalizing s k with
  | nil => cases hk
  | cons a t ih =>
    rw [List.map_cons, List.nodup_cons] at hnd
    rw [show (a :: t).enumFrom s = (s, a) :: t.enumFrom (s + 1) from rfl,
      List.filterMap_cons]
    cases k with
    | zero =>
      simp only [List.get]
      by_cases hpos : a.position = (s : Int)
      · rw [if_pos hpos, if_pos (by simpa using hpos)]
        refine findPos_eq_none (fun hmem => ?_)
        rcases List.mem_map.mp hmem with ⟨w', hw', hple⟩
        have := keys_mem_of_mem_enumFilterMap
          (f := fun p => if p.2.position = (p.1 : Int) then none else some (p.2.id, (p.1 : Int)))
          (fun p w hp => by
            have hp' : (if p.2.position = (p.1 : Int) then none else some (p.2.id, (p.1 : Int))) = some w := hp
            by_cases hcp : p.2.position = (p.1 : Int)
            · rw [if_pos hcp] at hp'; cases hp'
            · rw [if_neg hcp, Option.some_inj] at hp'
              rw [← hp']) hw'
        rw [hple] at this
        exact hnd.1 this
      · rw [if_neg hpos, if_neg (by simpa using hpos)]
        unfold findPos
        rw [if_pos rfl]
        simp
    | succ k' =>
      simp only [List.get]
      have hk' : k' < t.length := Nat.lt_of_succ_lt_succ hk
      have hne : a.id ≠ (t.get ⟨k', hk'⟩).id := by
        intro hh
        exact hnd.1 (hh ▸ List.mem_map_of_mem (·.id) (t.get_mem _ _))
      have tail : findPos (t.get ⟨k', hk'⟩).id ((t.enumFrom (s + 1)).filterMap (fun p =>
          if p.2.position = (p.1 : Int) then none else some (p.2.id, (p.1 : Int)))) =
          if (t.get ⟨k', hk'⟩).position = ((s + 1 + k' : Nat) : Int) then none
          else some ((s + 1 + k' : Nat) : Int) := ih hnd.2 (s + 1) k' hk'
      have harith : s + 1 + k' = s + (k' + 1) := by omega
      rw [harith] at tail
      by_cases hpos : a.position = (s : Int)
      · rw [if_pos hpos]
        exact tail
      · rw [if_neg hpos]
        unfold findPos
        rw [if_neg hne]
        exact tail

/-! Snapshot lemmas. -/

theorem eq_of_mem_of_id_eq {tasks : List TaskRow} (hnd : (tasks.map (·.id)).Nodup)
    {a b : TaskRow} (ha : a ∈ tasks) (hb : b ∈ tasks) (hab : a.id = b.id) : a = b :=
  List.inj_on_of_nodup_map hnd ha hb hab

theorem mem_reorderSnapshot {u : Nat} {q : Quadrant} {mid : Nat} {tasks : List TaskRow}
    {r : TaskRow} :
    r ∈ reorderSnapshot u q mid tasks ↔
      r ∈ tasks ∧ r.userId = u ∧ r.quadrant = q ∧ r.id ≠ mid := by
  unfold reorderSnapshot
  rw [(List.mergeSort_perm _ _).mem_iff, List.mem_filter]
  simp [decide_eq_true_iff]

theorem mem_compactSnapshot {u : Nat} {q : Quadrant} {tasks : List TaskRow} {r : TaskRow} :
    r ∈ compactSnapshot u q tasks ↔ r ∈ tasks ∧ r.userId = u ∧ r.quadrant = q := by
  unfold compactSnapshot
  rw [(List.mergeSort_perm _ _).mem_iff, List.mem_filter]
  simp [decide_eq_true_iff]

theorem reorderSnapshot_ids_nodup {u : Nat} {q : Quadrant} {mid : Nat} {tasks : List TaskRow}
    (hnd : (tasks.map (·.id)).Nodup) :
    ((reorderSnapshot u q mid tasks).map (·.id)).Nodup := by
  have hperm : ((reorderSnapshot u q mid tasks).map (fun r : TaskRow => r.id)).Perm
      ((tasks.filter (fun r =>
        decide (r.userId = u ∧ r.quadrant = q ∧ r.id ≠ mid))).map (fun r : TaskRow => r.id)) :=
    (List.mergeSort_perm _ _).map _
  exact hperm.nodup_iff.mpr
    ((List.Sublist.map (fun r : TaskRow => r.id) (List.filter_sublist tasks)).nodup hnd)

theorem compactSnapshot_ids_nodup {u : Nat} {q : Quadrant} {tasks : List TaskRow}
    (hnd : (tasks.map (·.id)).Nodup) :
    ((compactSnapshot u q tasks).map (·.id)).Nodup := by
  have hperm : ((compactSnapshot u q tasks).map (fun r : TaskRow => r.id)).Perm
      ((tasks.filter (fun r =>
        decide (r.userId = u ∧ r.quadrant = q))).map (fun r : TaskRow => r.id)) :=
    (List.mergeSort_perm _ _).map _
  exact hperm.nodup_iff.mpr
    ((List.Sublist.map (fun r : TaskRow => r.id) (List.filter_sublist tasks)).nodup hnd)

/-! The net effect of the reorder loop. -/

/-- With pairwise-distinct row ids, the reorder loop is the pointwise map
that bumps every row of the (user, quadrant) partition other than the moved
task whose position is at or after the insertion point. -/
theorem reorderTasksInQuadrant_eq_map (u : Nat) (q : Quadrant) (mid : Nat) (np : Int)
    (now : Nat) {tasks : List TaskRow} (hnd : (tasks.map (·.id)).Nodup) :
    reorderTasksInQuadrant u q mid np now false tasks = tasks.map (fun r =>
      if r.userId = u ∧ r.quadrant = q ∧ r.id ≠ mid ∧ np ≤ r.position then
        { r with position := r.position + 1, updatedAt := now }
      else r) := by
  have hf : ∀ (x : TaskRow) (w : Nat × Int),
      (if np ≤ x.position then some (x.id, x.position + 1) else none) = some w → w.1 = x.id := by
    intro x w hx
    by_cases hcx : np ≤ x.position
    · rw [if_pos hcx, Option.some_inj] at hx
      rw [← hx]
    · rw [if_neg hcx] at hx; cases hx
  have hsnd : ((reorderSnapshot u q mid tasks).map (·.id)).Nodup := reorderSnapshot_ids_nodup hnd
  show applyPosUpdates u now tasks _ = _
  rw [applyPosUpdates_eq_map u now _ (keys_nodup_filterMap hf hsnd) tasks]
  refine List.map_congr_left (fun r hr => ?_)
  by_cases hin : r.userId = u ∧ r.quadrant = q ∧ r.id ≠ mid
  · have hrs : r ∈ reorderSnapshot u q mid tasks :=
      mem_reorderSnapshot.mpr ⟨hr, hin.1, hin.2.1, hin.2.2⟩
    rw [findPos_condWrites hsnd (fun x => np ≤ x.position) (fun x => x.position + 1) hrs]
    by_cases hpos : np ≤ r.position
    · simp [hpos, hin.1, hin.2.1, hin.2.2]
    · simp [hpos]
  · have hnone : findPos r.id ((reorderSnapshot u q mid tasks).filterMap (fun x =>
        if np ≤ x.position then some (x.id, x.position + 1) else none)) = none := by
      refine findPos_eq_none (fun hmem => ?_)
      rcases List.mem_map.mp hmem with ⟨w, hw, hwfst⟩
      have hkey := keys_mem_of_mem_filterMap hf hw
      rw [hwfst] at hkey
      rcases List.mem_map.mp hkey with ⟨x, hx, hxid⟩
      have hxprops := mem_reorderSnapshot.mp hx
      have hxr : x = r := eq_of_mem_of_id_eq hnd hxprops.1 hr hxid
      exact hin (hxr ▸ hxprops.2)
    rw [hnone, if_neg (fun hc => hin ⟨hc.1, hc.2.1, hc.2.2.1⟩)]

/-! The net effect of the compaction loop. -/

theorem compactWrites_key (x : Nat × TaskRow) (w : Nat × Int)
    (hx : (if x.2.position = (x.1 : Int) then none else some (x.2.id, (x.1 : Int))) = some w) :
    w.1 = x.2.id := by
  by_cases hcx : x.2.position = (x.1 : Int)
  · rw [if_pos hcx] at hx; cases hx
  · rw [if_neg hcx, Option.some_inj] at hx
    rw [← hx]

/-- With pairwise-distinct row ids, the compaction loop acts like one
simultaneous update keyed on the compaction write list. -/
theorem compactPositionsInQuadrant_eq_map (u : Nat) (q : Quadrant) (now : Nat)
    {tasks : List TaskRow} (hnd : (tasks.map (·.id)).Nodup) :
    compactPositionsInQuadrant u q now false tasks = tasks.map (fun r =>
      match findPos r.id (compactWrites u q tasks) with
      | some p => if r.userId = u then { r with position := p, updatedAt := now } else r
      | none => r) := by
  show applyPosUpdates u now tasks _ = _
  exact applyPosUpdates_eq_map u now _
    (keys_nodup_enumFilterMap compactWrites_key (compactSnapshot_ids_nodup hnd) 0) tasks

/-- A row outside the (user, quadrant) partition is never a compaction
write target. -/
theorem compact_findPos_eq_none {u : Nat} {q : Quadrant} {tasks : List TaskRow}
    (hnd : (tasks.map (·.id)).Nodup) {r : TaskRow} (hr : r ∈ tasks)
    (hout : ¬(r.userId = u ∧ r.quadrant = q)) :
    findPos r.id (compactWrites u q tasks) = none := by
  refine findPos_eq_none (fun hmem => ?_)
  rcases List.mem_map.mp hmem with ⟨w, hw, hwfst⟩
  have hkey := keys_mem_of_mem_enumFilterMap compactWrites_key hw
  rw [hwfst] at hkey
  rcases List.mem_map.mp hkey with ⟨x, hx, hxid⟩
  have hxprops := mem_compactSnapshot.mp hx
  have hxr : x = r := eq_of_mem_of_id_eq hnd hxprops.1 hr hxid
  exact hout (hxr ▸ hxprops.2)

/-- Compaction write value for the snapshot row at index `k`. -/
theorem compact_findPos_at_index {u : Nat} {q : Quadrant} {tasks : List TaskRow}
    (hnd : (tasks.map (·.id)).Nodup) (k : Nat) (hk : k < (compactSnapshot u q tasks).length) :
    findPos ((compactSnapshot u q tasks).get ⟨k, hk⟩).id (compactWrites u q tasks) =
      if ((compactSnapshot u q tasks).get ⟨k, hk⟩).position = (k : Int) then none
      else some (k : Int) := by
  have h := findPos_compactWritesFrom (compactSnapshot_ids_nodup hnd) 0 k hk
  simpa using h

/-- After compaction, the row whose id is the snapshot's `k`-th entry holds
position `k`. -/
theorem compact_position_at_index (u : Nat) (q : Quadrant) (now : Nat) {tasks : List TaskRow}
    (hnd : (tasks.map (·.id)).Nodup) (k : Nat) (hk : k < (compactSnapshot u q tasks).length) :
    ∀ r' ∈ compactPositionsInQuadrant u q now false tasks,
      r'.id = ((compactSnapshot u q tasks).get ⟨k, hk⟩).id → r'.position = (k : Int) := by
  intro r' hr' hid
  rw [compactPositionsInQuadrant_eq_map u q now hnd] at hr'
  rcases List.mem_map.mp hr' with ⟨r, hr, hrF⟩
  have hsget : (compactSnapshot u q tasks).get ⟨k, hk⟩ ∈ compactSnapshot u q tasks :=
    List.get_mem _ _ _
  have hsprops := mem_compactSnapshot.mp hsget
  have hrid : r'.id = r.id := by
    rw [← hrF]
    cases hfp : findPos r.id (compactWrites u q tasks) with
    | none => simp [hfp]
    | some p =>
      by_cases huser : r.userId = u
      · simp [hfp, huser]
      · simp [hfp, huser]
  have hreq : r = (compactSnapshot u q tasks).get ⟨k, hk⟩ :=
    eq_of_mem_of_id_eq hnd hr hsprops.1 (by rw [← hrid, hid])
  rw [← hrF, hreq]
  by_cases hpos : ((compactSnapshot u q tasks).get ⟨k, hk⟩).position = (k : Int)
  · simp only [compact_findPos_at_index hnd k hk, if_pos hpos]
    exact hpos
  · simp only [compact_findPos_at_index hnd k hk, if_neg hpos]
    have hu := hsprops.2.1
    simp only [List.get_eq_getElem] at hu
    simp [hu]

/-- After compaction the multiset of positions in the (user, quadrant)
partition is exactly 0..n-1 where n is the snapshot length. -/
theorem compact_partition_perm (u : Nat) (q : Quadrant) (now : Nat) {tasks : List TaskRow}
    (hnd : (tasks.map (·.id)).Nodup) :
    (((compactPositionsInQuadrant u q now false tasks).filter
        (fun r => decide (r.userId = u ∧ r.quadrant = q))).map (·.position)).Perm
      ((List.range (compactSnapshot u q tasks).length).map (fun (k : Nat) => (k : Int))) := by
  rw [compactPositionsInQuadrant_eq_map u q now hnd]
  rw [List.filter_map]
  have hFpres : ∀ r : TaskRow,
      ((fun r : TaskRow =>
        match findPos r.id (compactWrites u q tasks) with
        | some p => if r.userId = u then { r with position := p, updatedAt := now } else r
        | none => r) r).userId = r.userId ∧
      ((fun r : TaskRow =>
        match findPos r.id (compactWrites u q tasks) with
        | some p => if r.userId = u then { r with position := p, updatedAt := now } else r
        | none => r) r).quadrant = r.quadrant := by
    intro r
    cases hfp : findPos r.id (compactWrites u q tasks) with
    | none => simp [hfp]
    | some p =>
      by_cases huser : r.userId = u
      · simp [hfp, huser]
      · simp [hfp, huser]
  have hfiltereq : tasks.filter ((fun r : TaskRow => decide (r.userId = u ∧ r.quadrant = q)) ∘
      (fun r : TaskRow =>
        match findPos r.id (compactWrites u q tasks) with
        | some p => if r.userId = u then { r with position := p, updatedAt := now } else r
        | none => r)) =
      tasks.filter (fun r => decide (r.userId = u ∧ r.quadrant = q)) := by
    refine List.filter_congr (fun r _ => ?_)
    simp only [Function.comp_apply, (hFpres r).1, (hFpres r).2]
  rw [hfiltereq, List.map_map]
  have hperm : (tasks.filter (fun r => decide (r.userId = u ∧ r.quadrant = q))).Perm
      (compactSnapshot u q tasks) := (List.mergeSort_perm _ _).symm
  refine ((hperm.map _).trans ?_).trans (List.Perm.refl _)
  have hlen : ((compactSnapshot u q tasks).map ((·.position) ∘
      (fun r : TaskRow =>
        match findPos r.id (compactWrites u q tasks) with
        | some p => if r.userId = u then { r with position := p, updatedAt := now } else r
        | none => r))).length =
      ((List.range (compactSnapshot u q tasks).length).map (fun (k : Nat) => (k : Int))).length := by
    rw [List.length_map, List.length_map, List.length_range]
  refine List.Perm.of_eq (List.ext_get hlen (fun n h₁ h₂ => ?_))
  have hn : n < (compactSnapshot u q tasks).length := by
    simpa using h₁
  have hget := compact_findPos_at_index hnd n hn
  have hsprops := mem_compactSnapshot.mp
    (List.get_mem (compactSnapshot u q tasks) n hn)
  simp only [List.get_eq_getElem] at hget hsprops ⊢
  simp only [List.getElem_map, List.getElem_range, Function.comp_apply]
  by_cases hpos : (compactSnapshot u q tasks)[n].position = (n : Int)
  · rw [hget, if_pos hpos]
    exact hpos
  · rw [hget, if_neg hpos]
    simp [hsprops.2.1]

/-- After compaction the partition holds as many rows as the snapshot. -/
theorem compact_partition_length (u : Nat) (q : Quadrant) (now : Nat) {tasks : List TaskRow}
    (hnd : (tasks.map (·.id)).Nodup) :
    ((compactPositionsInQuadrant u q now false tasks).filter
        (fun r => decide (r.userId = u ∧ r.quadrant = q))).length =
      (compactSnapshot u q tasks).length := by
  have h := (compact_partition_perm u q now hnd).length_eq
  simpa using h

/-- Every compaction write targets a snapshot row whose stored position
differs from the written one: unchanged rows are not written back. -/
theorem compactWrites_only_changed (u : Nat) (q : Quadrant) (tasks : List TaskRow) :
    ∀ w ∈ compactWrites u q tasks,
      ∃ r ∈ compactSnapshot u q tasks, r.id = w.1 ∧ r.position ≠ w.2 := by
  intro w hw
  rcases List.mem_filterMap.mp hw with ⟨p, hp, hfp⟩
  have hp' : (if p.2.position = (p.1 : Int) then none else some (p.2.id, (p.1 : Int))) = some w := hfp
  by_cases hc : p.2.position = (p.1 : Int)
  · rw [if_pos hc] at hp'; cases hp'
  · rw [if_neg hc, Option.some_inj] at hp'
    refine ⟨p.2, snd_mem_of_mem_enumFrom
      (show p ∈ (compactSnapshot u q tasks).enumFrom 0 from hp), ?_, ?_⟩
    · rw [← hp']
    · rw [← hp']
      exact hc

theorem exists_ok_of_ne_error {ε α : Type _} (x : Except ε α)
    (h : ∀ e, x ≠ Except.error e) : ∃ b, x = Except.ok b := by
  cases x with
  | error e => exact absurd rfl (h e)
  | ok b => exact ⟨b, rfl⟩

/-! Inversion lemmas for the three service methods. -/

theorem createTask_ok_inv {tc : TaskCreate} {u newId now : Nat} {tasks : List TaskRow}
    {goals : List GoalRow} {row : TaskRow} {tasks' : List TaskRow}
    (h : createTask tc u newId now tasks goals = .ok (row, tasks')) :
    row = createdRow tc u newId now tasks ∧ tasks' = tasks ++ [row] := by
  unfold createTask at h
  by_cases h1 : 1000 ≤ countUserTasks u tasks
  · rw [if_pos h1] at h
    exact Except.noConfusion h
  rw [if_neg h1] at h
  by_cases h2 : tc.quadrant = Quadrant.staging ∧ 5 ≤ countStagingTasks u tasks
  · rw [if_pos h2] at h
    exact Except.noConfusion h
  rw [if_neg h2] at h
  by_cases h3 : goalCheckFails tc.goalId u goals = true
  · rw [if_pos h3] at h
    exact Except.noConfusion h
  rw [if_neg h3] at h
  simp only [Except.ok.injEq, Prod.mk.injEq] at h
  exact ⟨h.1.symm, by rw [h.2.symm, h.1]⟩

theorem moveTask_ok_inv {tid : Nat} {mv : TaskMove} {u now : Nat} {cf rf : Bool}
    {tasks : List TaskRow} {row : TaskRow} {tasks' : List TaskRow}
    (h : moveTask tid mv u now cf rf tasks = .ok (row, tasks')) :
    ∃ t, findTask tid u tasks = some t ∧
      ¬(mv.quadrant = Quadrant.staging ∧ t.quadrant ≠ Quadrant.staging ∧
        5 ≤ countStagingTasks u tasks) ∧
      row = movePatch t.quadrant mv.quadrant mv.position now t ∧
      tasks' = moveFinalTasks tid mv u now cf rf t tasks := by
  cases hfind : findTask tid u tasks with
  | none =>
    simp only [moveTask, hfind] at h
    exact Except.noConfusion h
  | some t =>
    simp only [moveTask, hfind] at h
    by_cases hguard : mv.quadrant = Quadrant.staging ∧ t.quadrant ≠ Quadrant.staging ∧
        5 ≤ countStagingTasks u tasks
    · rw [if_pos hguard] at h
      exact Except.noConfusion h
    · rw [if_neg hguard] at h
      simp only [Except.ok.injEq, Prod.mk.injEq] at h
      exact ⟨t, rfl, hguard, h.1.symm, h.2.symm⟩

theorem updateTask_ok_inv {tid : Nat} {tu : TaskUpdate} {u now : Nat}
    {tasks : List TaskRow} {row : TaskRow} {tasks' : List TaskRow}
    (h : updateTask tid tu u now tasks = .ok (row, tasks')) :
    ∃ t, findTask tid u tasks = some t ∧
      ((tu.quadrant = none ∧ tu.completed = none ∧ tu.position = none ∧
        row = t ∧ tasks' = tasks) ∨
       (row = updatePatch tu t now t ∧ tasks' = updatedTasks tid tu u now t tasks)) := by
  cases hfind : findTask tid u tasks with
  | none =>
    simp only [updateTask, hfind] at h
    exact Except.noConfusion h
  | some t =>
    simp only [updateTask, hfind] at h
    by_cases hall : tu.quadrant = none ∧ tu.completed = none ∧ tu.position = none
    · rw [if_pos hall] at h
      simp only [Except.ok.injEq, Prod.mk.injEq] at h
      exact ⟨t, rfl, Or.inl ⟨hall.1, hall.2.1, hall.2.2, h.1.symm, h.2.symm⟩⟩
    · rw [if_neg hall] at h
      by_cases hguard : (match tu.quadrant with
          | some nq => decide (nq = Quadrant.staging ∧ t.quadrant ≠ Quadrant.staging ∧
              5 ≤ countStagingTasks u tasks)
          | none => false) = true
      · rw [if_pos hguard] at h
        exact Except.noConfusion h
      · rw [if_neg hguard] at h
        simp only [Except.ok.injEq, Prod.mk.injEq] at h
        exact ⟨t, rfl, Or.inr ⟨h.1.symm, h.2.symm⟩⟩

/-! Staging-flag bookkeeping lemmas. -/

theorem staging_flag_else {nq told : Quadrant} {b : Bool}
    (h1 : ¬(nq = Quadrant.staging ∧ told ≠ Quadrant.staging))
    (h2 : ¬(nq ≠ Quadrant.staging ∧ told = Quadrant.staging))
    (hinv : b = true ↔ told = Quadrant.staging) :
    (b = true ↔ nq = Quadrant.staging) := by
  by_cases hq : nq = Quadrant.staging
  · have htold : told = Quadrant.staging := by
      by_contra hc
      exact h1 ⟨hq, hc⟩
    exact ⟨fun _ => hq, fun _ => hinv.mpr htold⟩
  · have htold : told ≠ Quadrant.staging := fun hc => h2 ⟨hq, hc⟩
    exact ⟨fun hb => absurd (hinv.mp hb) htold, fun hh => absurd hh hq⟩

theorem movePatch_staging_invariant (src tgt : Quadrant) (pos : Int) (now : Nat)
    (t : TaskRow) (hinv : t.isStaged = true ↔ src = Quadrant.staging) :
    ((movePatch src tgt pos now t).isStaged = true ↔
      (movePatch src tgt pos now t).quadrant = Quadrant.staging) := by
  unfold movePatch
  split_ifs with h1 h2
  · simp [h1.1]
  · simp [h2.1]
  · exact staging_flag_else h1 h2 hinv

theorem updatePatch_staging_invariant (tu : TaskUpdate) (t : TaskRow) (now : Nat)
    (hinv : t.isStaged = true ↔ t.quadrant = Quadrant.staging) :
    ((updatePatch tu t now t).isStaged = true ↔
      (updatePatch tu t now t).quadrant = Quadrant.staging) := by
  rcases tu with ⟨tq, tcomp, tpos⟩
  cases tq with
  | none =>
    cases tcomp <;> cases tpos <;>
      first
        | simpa [updatePatch] using hinv
        | (simp only [updatePatch]; split_ifs <;> simpa using hinv)
  | some nq =>
    cases tcomp <;> cases tpos <;>
      · simp only [updatePatch]
        split_ifs <;>
          first
            | exact @staging_flag_else nq t.quadrant t.isStaged (by assumption) (by assumption) hinv
            | simp_all

/-! Field-preservation and filter/map commutation lemmas. -/

theorem movePatch_fields (src tgt : Quadrant) (pos : Int) (now : Nat) (r : TaskRow) :
    (movePatch src tgt pos now r).id = r.id ∧
    (movePatch src tgt pos now r).userId = r.userId ∧
    (movePatch src tgt pos now r).quadrant = tgt ∧
    (movePatch src tgt pos now r).position = pos := by
  unfold movePatch
  split_ifs <;> exact ⟨rfl, rfl, rfl, rfl⟩

theorem filter_map_comm {p : TaskRow → Bool} {f : TaskRow → TaskRow} {l : List TaskRow}
    (hpf : ∀ r ∈ l, p (f r) = p r) :
    (l.map f).filter p = (l.filter p).map f := by
  rw [List.filter_map]
  congr 1
  exact List.filter_congr (fun r hr => hpf r hr)

theorem map_id_on {f : TaskRow → TaskRow} {l : List TaskRow} (h : ∀ r ∈ l, f r = r) :
    l.map f = l :=
  (List.map_congr_left (fun a ha => h a ha)).trans (List.map_id' l)

theorem ids_map_of_id_preserved {f : TaskRow → TaskRow} (hf : ∀ r, (f r).id = r.id)
    (l : List TaskRow) : (l.map f).map (·.id) = l.map (·.id) := by
  rw [List.map_map]
  exact List.map_congr_left (fun a _ => hf a)

theorem movePatchedTasks_ids (tid : Nat) (mv : TaskMove) (u now : Nat) (t : TaskRow)
    (tasks : List TaskRow) :
    (movePatchedTasks tid mv u now t tasks).map (·.id) = tasks.map (·.id) := by
  unfold movePatchedTasks
  refine ids_map_of_id_preserved (fun r => ?_) tasks
  by_cases hc : r.id = tid ∧ r.userId = u
  · rw [if_pos hc]
    exact (movePatch_fields t.quadrant mv.quadrant mv.position now r).1
  · rw [if_neg hc]

theorem compact_ids (u : Nat) (q : Quadrant) (now : Nat) {tasks : List TaskRow}
    (hnd : (tasks.map (·.id)).Nodup) :
    (compactPositionsInQuadrant u q now false tasks).map (·.id) = tasks.map (·.id) := by
  rw [compactPositionsInQuadrant_eq_map u q now hnd]
  refine ids_map_of_id_preserved (fun r => ?_) tasks
  cases hfp : findPos r.id (compactWrites u q tasks) with
  | none => simp [hfp]
  | some p =>
    by_cases huser : r.userId = u
    · simp [hfp, huser]
    · simp [hfp, huser]

/-- A row of the source quadrant is untouched by a compaction run on a
different quadrant membership predicate, pointwise form. -/
theorem compact_preserves_row {u : Nat} {q : Quadrant} {now : Nat} {tasks : List TaskRow}
    (hnd : (tasks.map (·.id)).Nodup) {r : TaskRow} (hr : r ∈ tasks)
    (hout : ¬(r.userId = u ∧ r.quadrant = q)) :
    r ∈ compactPositionsInQuadrant u q now false tasks := by
  rw [compactPositionsInQuadrant_eq_map u q now hnd]
  have hm := List.mem_map_of_mem (fun r : TaskRow =>
    match findPos r.id (compactWrites u q tasks) with
    | some p => if r.userId = u then { r with position := p, updatedAt := now } else r
    | none => r) hr
  have hnone := compact_findPos_eq_none hnd hr hout
  have heq : (fun r : TaskRow =>
      match findPos r.id (compactWrites u q tasks) with
      | some p => if r.userId = u then { r with position := p, updatedAt := now } else r
      | none => r) r = r := by
    simp [hnone]
  rw [heq] at hm
  exact hm

/-! Claim theorems. -/

/-- Claim C1: every successful `create_task` assigns the new task the
end-of-quadrant position (`TaskCreate` cannot carry a desired position, so
the end-of-quadrant arm is the one that runs), leaves every existing row
untouched, and every existing task of the same (user, quadrant) partition
sits strictly below the new position — so the set of tasks at or after the
insertion point that would need shifting is empty and no two tasks of the
partition share a position as a result of the operation. -/
theorem create_task_insert_at (tc : TaskCreate) (u newId now : Nat)
    (tasks : List TaskRow) (goals : List GoalRow) (row : TaskRow) (tasks' : List TaskRow)
    (h : createTask tc u newId now tasks goals = .ok (row, tasks')) :
    row.position = nextPosition u tc.quadrant tasks ∧
    tasks' = tasks ++ [row] ∧
    (∀ r ∈ tasks, r.userId = u → r.quadrant = tc.quadrant → r.position < row.position) := by
  unfold createTask at h
  by_cases h1 : 1000 ≤ countUserTasks u tasks
  · rw [if_pos h1] at h
    exact Except.noConfusion h
  rw [if_neg h1] at h
  by_cases h2 : tc.quadrant = Quadrant.staging ∧ 5 ≤ countStagingTasks u tasks
  · rw [if_pos h2] at h
    exact Except.noConfusion h
  rw [if_neg h2] at h
  by_cases h3 : goalCheckFails tc.goalId u goals = true
  · rw [if_pos h3] at h
    exact Except.noConfusion h
  rw [if_neg h3] at h
  simp only [Except.ok.injEq, Prod.mk.injEq] at h
  obtain ⟨hrow, htasks⟩ := h
  subst hrow
  refine ⟨rfl, htasks.symm, ?_⟩
  intro r hr hu hq
  exact lt_nextPosition hr hu hq

/-- Witness for C1 on a concrete database: user 7 creates a Q1 task on a
quadrant holding positions 0, 1, 2; it lands at position 3 with the store
extended by exactly that row. -/
theorem create_task_insert_at_witness :
    createTask ⟨Quadrant.q1, none⟩ 7 9 10 demoQ1Tasks [] =
      .ok (demoCreatedRow, demoQ1Tasks ++ [demoCreatedRow]) ∧
    demoCreatedRow.position = nextPosition 7 Quadrant.q1 demoQ1Tasks :=
  ⟨by rfl, (create_task_insert_at ⟨Quadrant.q1, none⟩ 7 9 10 demoQ1Tasks []
    demoCreatedRow (demoQ1Tasks ++ [demoCreatedRow]) (by rfl)).1⟩

/-- Claim C2: the staging capacity guard. Creating in staging with five or
more non-completed staged tasks is rejected with the capacity error (and no
state is returned with the error, so nothing is written); under five the
create is admitted. A move into staging from a non-staging quadrant is
rejected at capacity and admitted under it; a move out of staging is never
capacity-checked. An update changing quadrant to staging from non-staging is
rejected at capacity; an update of a task already in staging without an
effective quadrant change is never capacity-rejected. -/
theorem staging_capacity_guard (u newId now : Nat) (tasks : List TaskRow)
    (goals : List GoalRow) :
    (∀ tc : TaskCreate, tc.quadrant = Quadrant.staging → countUserTasks u tasks < 1000 →
      5 ≤ countStagingTasks u tasks →
      createTask tc u newId now tasks goals =
        .error (.conflict "Staging zone is full (maximum 5 items)")) ∧
    (∀ tc : TaskCreate, tc.goalId = none → countUserTasks u tasks < 1000 →
      countStagingTasks u tasks < 5 →
      ∃ row tasks', createTask tc u newId now tasks goals = .ok (row, tasks')) ∧
    (∀ (tid : Nat) (mv : TaskMove) (t : TaskRow) (cf rf : Bool),
      findTask tid u tasks = some t → mv.quadrant = Quadrant.staging →
      t.quadrant ≠ Quadrant.staging → 5 ≤ countStagingTasks u tasks →
      moveTask tid mv u now cf rf tasks =
        .error (.conflict "Staging zone is full (maximum 5 items)")) ∧
    (∀ (tid : Nat) (mv : TaskMove) (t : TaskRow) (cf rf : Bool),
      findTask tid u tasks = some t → countStagingTasks u tasks < 5 →
      ∃ out, moveTask tid mv u now cf rf tasks = .ok out) ∧
    (∀ (tid : Nat) (mv : TaskMove) (t : TaskRow) (cf rf : Bool),
      findTask tid u tasks = some t → mv.quadrant ≠ Quadrant.staging →
      ∃ out, moveTask tid mv u now cf rf tasks = .ok out) ∧
    (∀ (tid : Nat) (tu : TaskUpdate) (t : TaskRow),
      findTask tid u tasks = some t → tu.quadrant = some Quadrant.staging →
      t.quadrant ≠ Quadrant.staging → 5 ≤ countStagingTasks u tasks →
      updateTask tid tu u now tasks =
        .error (.conflict "Staging zone is full (maximum 5 items)")) ∧
    (∀ (tid : Nat) (tu : TaskUpdate) (t : TaskRow),
      findTask tid u tasks = some t →
      (tu.quadrant = none ∨ (t.quadrant = Quadrant.staging ∧ tu.quadrant = some Quadrant.staging)) →
      ∃ out, updateTask tid tu u now tasks = .ok out) := by
  refine ⟨?_, ?_, ?_, ?_, ?_, ?_, ?_⟩
  · intro tc hq h1000 hcount
    unfold createTask
    rw [if_neg (by omega), if_pos ⟨hq, hcount⟩]
  · intro tc hgoal h1000 hcount
    refine ⟨createdRow tc u newId now tasks, tasks ++ [createdRow tc u newId now tasks], ?_⟩
    unfold createTask
    rw [if_neg (by omega), if_neg (fun hc => absurd hc.2 (by omega)),
      if_neg (by rw [hgoal]; simp [goalCheckFails])]
  · intro tid mv t cf rf hfind hq hne hcount
    simp only [moveTask, hfind]
    rw [if_pos ⟨hq, hne, hcount⟩]
  · intro tid mv t cf rf hfind hcount
    refine exists_ok_of_ne_error _ (fun e hcontra => ?_)
    simp only [moveTask, hfind] at hcontra
    rw [if_neg (fun hc => absurd hc.2.2 (by omega))] at hcontra
    exact Except.noConfusion hcontra
  · intro tid mv t cf rf hfind hmv
    refine exists_ok_of_ne_error _ (fun e hcontra => ?_)
    simp only [moveTask, hfind] at hcontra
    rw [if_neg (fun hc => hmv hc.1)] at hcontra
    exact Except.noConfusion hcontra
  · intro tid tu t hfind hq hne hcount
    simp only [updateTask, hfind]
    rw [if_neg (fun hall => by rw [hq] at hall; exact Option.noConfusion hall.1)]
    rw [if_pos (by rw [hq]; exact decide_eq_true ⟨rfl, hne, hcount⟩)]
  · intro tid tu t hfind hdisj
    refine exists_ok_of_ne_error _ (fun e hcontra => ?_)
    simp only [updateTask, hfind] at hcontra
    rcases hdisj with hq | ⟨htq, hq⟩
    · by_cases hc : tu.quadrant = none ∧ tu.completed = none ∧ tu.position = none
      · rw [if_pos hc] at hcontra
        exact Except.noConfusion hcontra
      · rw [if_neg hc] at hcontra
        rw [if_neg (fun hmatch => by rw [hq] at hmatch; simp at hmatch)] at hcontra
        exact Except.noConfusion hcontra
    · rw [if_neg (fun hall => by rw [hq] at hall; exact Option.noConfusion hall.1)] at hcontra
      rw [if_neg (fun hmatch => by
        rw [hq] at hmatch
        exact (of_decide_eq_true hmatch).2.1 htq)] at hcontra
      exact Except.noConfusion hcontra

/-- Witness for C2 on a concrete database: with exactly five non-completed
staging tasks, creating a sixth directly in staging is rejected with the
capacity error. -/
theorem staging_capacity_guard_witness :
    countUserTasks 7 demoStagingFull < 1000 ∧ 5 ≤ countStagingTasks 7 demoStagingFull ∧
    createTask ⟨Quadrant.staging, none⟩ 7 9 10 demoStagingFull [] =
      .error (.conflict "Staging zone is full (maximum 5 items)") :=
  ⟨by decide, by decide,
    (staging_capacity_guard 7 9 10 demoStagingFull []).1 ⟨Quadrant.staging, none⟩ rfl
      (by decide) (by decide)⟩

/-- Claim C6: every public task operation preserves the invariant
`is_staged == (quadrant == "staging")` on the task it returns: a created row
satisfies it unconditionally, and when every stored row satisfies it, so
does the row returned by an update or a move. -/
theorem task_ops_preserve_staging_invariant (u : Nat) (tasks : List TaskRow) :
    (∀ (tc : TaskCreate) (newId now : Nat) (goals : List GoalRow) (row : TaskRow)
      (tasks' : List TaskRow), createTask tc u newId now tasks goals = .ok (row, tasks') →
      (row.isStaged = true ↔ row.quadrant = Quadrant.staging)) ∧
    ((∀ r ∈ tasks, r.isStaged = true ↔ r.quadrant = Quadrant.staging) →
      (∀ (tid : Nat) (tu : TaskUpdate) (now : Nat) (row : TaskRow) (tasks' : List TaskRow),
        updateTask tid tu u now tasks = .ok (row, tasks') →
        (row.isStaged = true ↔ row.quadrant = Quadrant.staging)) ∧
      (∀ (tid : Nat) (mv : TaskMove) (now : Nat) (cf rf : Bool) (row : TaskRow)
        (tasks' : List TaskRow), moveTask tid mv u now cf rf tasks = .ok (row, tasks') →
        (row.isStaged = true ↔ row.quadrant = Quadrant.staging))) := by
  constructor
  · intro tc newId now goals row tasks' h
    rw [(createTask_ok_inv h).1]
    simp [createdRow]
  · intro hinv
    constructor
    · intro tid tu now row tasks' h
      rcases updateTask_ok_inv h with ⟨t, hfind, hcases⟩
      have ht := findTask_spec hfind
      have htinv := hinv t ht.1
      rcases hcases with ⟨_, _, _, hrow, _⟩ | ⟨hrow, _⟩
      · rw [hrow]
        exact htinv
      · rw [hrow]
        exact updatePatch_staging_invariant tu t now htinv
    · intro tid mv now cf rf row tasks' h
      rcases moveTask_ok_inv h with ⟨t, hfind, _, hrow, _⟩
      have ht := findTask_spec hfind
      have htinv := hinv t ht.1
      rw [hrow]
      exact movePatch_staging_invariant t.quadrant mv.quadrant mv.position now t htinv

/-- Witness for C6 on a concrete database whose rows all satisfy the
invariant: updating task 1 of `demoQ1Tasks` into staging returns a row with
`is_staged = true` and quadrant staging. -/
theorem task_ops_preserve_staging_invariant_witness :
    updateTask 1 ⟨some Quadrant.staging, none, none⟩ 7 10 demoQ1Tasks =
      .ok (demoUpdatedRow, demoUpdatedTasks) ∧
    (demoUpdatedRow.isStaged = true ↔ demoUpdatedRow.quadrant = Quadrant.staging) :=
  ⟨by rfl,
    (task_ops_preserve_staging_invariant 7 demoQ1Tasks).2 (by decide) |>.1
      1 ⟨some Quadrant.staging, none, none⟩ 10 demoUpdatedRow demoUpdatedTasks (by rfl)⟩

/-- Claim C7: `calculate_productivity_score` never fails on missing data —
when the aggregate RPC result is null or holds no rows, the wrapper
substitutes the all-zero defaults: every component score and the overall
score are 0, the trend is "stable" and the recommendation list contains the
create-your-first-goal message. -/
theorem productivity_score_defaults (rpcData : Option (List ScoreRpcRow))
    (h : rpcData = none ∨ rpcData = some []) :
    calculateProductivityScore rpcData =
      { overallScore := 0
        goalCompletionScore := 0
        taskCompletionScore := 0
        quadrantBalanceScore := 0
        consistencyScore := 0
        stagingEfficiencyScore := 0
        scoreTrend := "stable"
        recommendations := [createGoalMsg] } ∧
    createGoalMsg ∈ (calculateProductivityScore rpcData).recommendations := by
  rcases h with rfl | rfl
  · exact ⟨rfl, by simp [calculateProductivityScore]⟩
  · exact ⟨rfl, by simp [calculateProductivityScore]⟩

/-- Witness for C7: a null RPC result yields the default report. -/
theorem productivity_score_defaults_witness :
    (none : Option (List ScoreRpcRow)) = none ∧
    createGoalMsg ∈ (calculateProductivityScore none).recommendations :=
  ⟨rfl, (productivity_score_defaults none (Or.inl rfl)).2⟩

/-- Claim C8: the quadrant-analysis recommendation list contains each
threshold message exactly when its rule triggers — Q1 share above 30, Q2
share below 40, Q3 share above 25, Q4 share above 10, staging share above
20 — and when no rule triggers it is exactly the single affirmation
message. -/
theorem quadrant_analysis_thresholds (d : QuadrantDistribution) :
    (q1Msg ∈ quadrantRecommendations d ↔ d.q1Percentage > 30) ∧
    (q2Msg ∈ quadrantRecommendations d ↔ d.q2Percentage < 40) ∧
    (q3Msg ∈ quadrantRecommendations d ↔ d.q3Percentage > 25) ∧
    (q4Msg ∈ quadrantRecommendations d ↔ d.q4Percentage > 10) ∧
    (stagingMsg ∈ quadrantRecommendations d ↔ d.stagingPercentage > 20) ∧
    (¬d.q1Percentage > 30 → ¬d.q2Percentage < 40 → ¬d.q3Percentage > 25 →
      ¬d.q4Percentage > 10 → ¬d.stagingPercentage > 20 →
      quadrantRecommendations d = [balanceMsg]) := by
  unfold quadrantRecommendations
  split_ifs with h1 h2 h3 h4 h5 <;>
    simp_all [q1Msg, q2Msg, q3Msg, q4Msg, stagingMsg, balanceMsg]

/-- Witness for C8 at a balanced distribution: no rule triggers and the
analysis emits exactly the affirmation message. -/
theorem quadrant_analysis_thresholds_witness :
    ¬(20 : ℚ) > 30 ∧
    quadrantRecommendations ⟨20, 60, 15, 5, 0⟩ = [balanceMsg] :=
  ⟨by norm_num,
    (quadrant_analysis_thresholds ⟨20, 60, 15, 5, 0⟩).2.2.2.2.2
      (by norm_num) (by norm_num) (by norm_num) (by norm_num) (by norm_num)⟩

/-- Claim C10: `move_task` ignores the `isStaged` field of the move
payload — two calls identical except for that field are the same function
of the state, so the resulting task and store state coincide and the staged
flag is determined solely by the source and target quadrants. -/
theorem move_task_ignores_payload_staged_flag (tid : Nat) (q : Quadrant) (pos : Int)
    (b b' : Option Bool) (u now : Nat) (cf rf : Bool) (tasks : List TaskRow) :
    moveTask tid ⟨q, pos, b⟩ u now cf rf tasks = moveTask tid ⟨q, pos, b'⟩ u now cf rf tasks :=
  rfl

/-- Counterexample to claim C4: `update_task` moving a Q1 task with a stale
`organized_at` into staging sets `is_staged` and `staged_at` but does not
clear `organized_at` to null — the returned row keeps `organized_at = 5`,
contradicting the claim that entering staging via `update_task` clears
`organized_at`. -/
theorem update_entering_staging_keeps_organized_at :
    updateTask 1 ⟨some Quadrant.staging, none, none⟩ 7 20 demoHistoryTasks =
      .ok (demoEnterStagingRow, demoEnterStagingTasks) ∧
    demoEnterStagingRow.quadrant = Quadrant.staging ∧
    demoEnterStagingRow.isStaged = true ∧
    demoEnterStagingRow.stagedAt = some 20 ∧
    demoEnterStagingRow.organizedAt = some 5 ∧
    demoEnterStagingRow.organizedAt ≠ none :=
  ⟨rfl, rfl, rfl, rfl, rfl, by decide⟩

/-- Claim C4 as amended: on a staging-boundary crossing via `move_task`,
entering staging sets `is_staged=true`, `staged_at=now` and clears
`organized_at`, and leaving staging sets `is_staged=false`,
`organized_at=now` and clears `staged_at`; via `update_task` with a quadrant
change the crossing sets `is_staged` and the entering/leaving timestamp to
now but leaves the opposite timestamp unchanged instead of clearing it. -/
theorem staging_boundary_bookkeeping (u now : Nat) (tasks : List TaskRow) :
    (∀ (tid : Nat) (mv : TaskMove) (cf rf : Bool) (t row : TaskRow) (tasks' : List TaskRow),
      findTask tid u tasks = some t →
      moveTask tid mv u now cf rf tasks = .ok (row, tasks') →
      mv.quadrant = Quadrant.staging → t.quadrant ≠ Quadrant.staging →
      row.isStaged = true ∧ row.stagedAt = some now ∧ row.organizedAt = none) ∧
    (∀ (tid : Nat) (mv : TaskMove) (cf rf : Bool) (t row : TaskRow) (tasks' : List TaskRow),
      findTask tid u tasks = some t →
      moveTask tid mv u now cf rf tasks = .ok (row, tasks') →
      mv.quadrant ≠ Quadrant.staging → t.quadrant = Quadrant.staging →
      row.isStaged = false ∧ row.organizedAt = some now ∧ row.stagedAt = none) ∧
    (∀ (tid : Nat) (tu : TaskUpdate) (t row : TaskRow) (tasks' : List TaskRow),
      findTask tid u tasks = some t →
      updateTask tid tu u now tasks = .ok (row, tasks') →
      tu.quadrant = some Quadrant.staging → t.quadrant ≠ Quadrant.staging →
      row.isStaged = true ∧ row.stagedAt = some now ∧ row.organizedAt = t.organizedAt) ∧
    (∀ (tid : Nat) (tu : TaskUpdate) (nq : Quadrant) (t row : TaskRow) (tasks' : List TaskRow),
      findTask tid u tasks = some t →
      updateTask tid tu u now tasks = .ok (row, tasks') →
      tu.quadrant = some nq → nq ≠ Quadrant.staging → t.quadrant = Quadrant.staging →
      row.isStaged = false ∧ row.organizedAt = some now ∧ row.stagedAt = t.stagedAt) := by
  refine ⟨?_, ?_, ?_, ?_⟩
  · intro tid mv cf rf t row tasks' hfind h hmv hne
    rcases moveTask_ok_inv h with ⟨t', hfind', _, hrow, _⟩
    rw [hfind] at hfind'
    obtain rfl : t = t' := by
      exact Option.some_inj.mp hfind'
    rw [hrow]
    unfold movePatch
    rw [if_pos ⟨hmv, hne⟩]
    exact ⟨rfl, rfl, rfl⟩
  · intro tid mv cf rf t row tasks' hfind h hmv hq
    rcases moveTask_ok_inv h with ⟨t', hfind', _, hrow, _⟩
    rw [hfind] at hfind'
    obtain rfl : t = t' := Option.some_inj.mp hfind'
    rw [hrow]
    unfold movePatch
    rw [if_neg (fun hc => hmv hc.1), if_pos ⟨hmv, hq⟩]
    exact ⟨rfl, rfl, rfl⟩
  · intro tid tu t row tasks' hfind h hq hne
    rcases updateTask_ok_inv h with ⟨t', hfind', hcases⟩
    rw [hfind] at hfind'
    obtain rfl : t = t' := Option.some_inj.mp hfind'
    rcases hcases with ⟨hqnone, _, _, _, _⟩ | ⟨hrow, _⟩
    · rw [hq] at hqnone
      exact Option.noConfusion hqnone
    · rw [hrow]
      obtain ⟨tq, tcomp, tpos⟩ := tu
      simp only at hq
      subst hq
      cases tcomp <;> cases tpos <;>
        · simp only [updatePatch]
          split_ifs <;>
            first
              | exact ⟨rfl, rfl, rfl⟩
              | simp_all
  · intro tid tu nq t row tasks' hfind h hq hnq hsrc
    rcases updateTask_ok_inv h with ⟨t', hfind', hcases⟩
    rw [hfind] at hfind'
    obtain rfl : t = t' := Option.some_inj.mp hfind'
    rcases hcases with ⟨hqnone, _, _, _, _⟩ | ⟨hrow, _⟩
    · rw [hq] at hqnone
      exact Option.noConfusion hqnone
    · rw [hrow]
      obtain ⟨tq, tcomp, tpos⟩ := tu
      simp only at hq
      subst hq
      cases tcomp <;> cases tpos <;>
        · simp only [updatePatch]
          split_ifs <;>
            first
              | exact ⟨rfl, rfl, rfl⟩
              | simp_all

/-- Witness for the amended C4 on a concrete database: updating the Q1 task
with a stale `organized_at` into staging sets the staged flag and timestamp
and keeps `organized_at` unchanged. -/
theorem staging_boundary_bookkeeping_witness :
    updateTask 1 ⟨some Quadrant.staging, none, none⟩ 7 20 demoHistoryTasks =
      .ok (demoEnterStagingRow, demoEnterStagingTasks) ∧
    (demoEnterStagingRow.isStaged = true ∧ demoEnterStagingRow.stagedAt = some 20 ∧
      demoEnterStagingRow.organizedAt =
        ({ mkRow 1 7 Quadrant.q1 0 with organizedAt := some 5 } : TaskRow).organizedAt) :=
  ⟨rfl,
    (staging_boundary_bookkeeping 7 20 demoHistoryTasks).2.2.1 1
      ⟨some Quadrant.staging, none, none⟩
      { mkRow 1 7 Quadrant.q1 0 with organizedAt := some 5 }
      demoEnterStagingRow demoEnterStagingTasks (by rfl) (by rfl) rfl (by decide)⟩

/-- Claim C9: a failure in the best-effort cleanup after a successful
primary write is swallowed — `move_task` still returns success with the row
of the primary UPDATE whatever cleanup step fails, and with both cleanups
failing the final state is exactly the primary update; `delete_goal` with a
failing task-reparenting cleanup still returns success, the goal is
archived, and the task rows are left as they were. -/
theorem best_effort_cleanup_swallowed (u now : Nat) (tasks : List TaskRow)
    (goals : List GoalRow) :
    (∀ (tid : Nat) (mv : TaskMove) (row₀ : TaskRow) (tasks₀ : List TaskRow),
      moveTask tid mv u now false false tasks = .ok (row₀, tasks₀) →
      (∀ cf rf : Bool, ∃ d, moveTask tid mv u now cf rf tasks = .ok (row₀, d)) ∧
      (∃ t, findTask tid u tasks = some t ∧
        moveTask tid mv u now true true tasks =
          .ok (row₀, movePatchedTasks tid mv u now t tasks))) ∧
    (∀ gid : Nat,
      ¬(goals.filter (fun r => decide (r.id = gid ∧ r.userId = u))).isEmpty = true →
      deleteGoal gid u now true goals tasks =
        .ok (true, goals.map (fun r =>
          if r.id = gid ∧ r.userId = u then { r with archived := true, updatedAt := now }
          else r), tasks) ∧
      (∀ g ∈ goals, g.id = gid → g.userId = u →
        { g with archived := true, updatedAt := now } ∈
          goals.map (fun r =>
            if r.id = gid ∧ r.userId = u then { r with archived := true, updatedAt := now }
            else r))) := by
  constructor
  · intro tid mv row₀ tasks₀ h₀
    rcases moveTask_ok_inv h₀ with ⟨t, hfind, hguard, hrow, _⟩
    have hff : moveFinalTasks tid mv u now true true t tasks =
        movePatchedTasks tid mv u now t tasks := by
      unfold moveFinalTasks
      have h1 : ∀ x : List TaskRow,
          reorderTasksInQuadrant u mv.quadrant tid mv.position now true x = x := fun _ => rfl
      have h2 : ∀ x : List TaskRow,
          compactPositionsInQuadrant u t.quadrant now true x = x := fun _ => rfl
      rw [h1]
      by_cases hq : t.quadrant ≠ mv.quadrant
      · rw [if_pos hq, h2]
      · rw [if_neg hq]
    constructor
    · intro cf rf
      refine ⟨moveFinalTasks tid mv u now cf rf t tasks, ?_⟩
      simp only [moveTask, hfind]
      rw [if_neg hguard, hrow]
    · refine ⟨t, hfind, ?_⟩
      simp only [moveTask, hfind]
      rw [if_neg hguard, hrow, hff]
  · intro gid hexists
    constructor
    · unfold deleteGoal
      rw [if_neg hexists]
      rfl
    · intro g hg hid huser
      have hm := List.mem_map_of_mem (fun r =>
        if r.id = gid ∧ r.userId = u then { r with archived := true, updatedAt := now }
        else r) hg
      have hm' : (if g.id = gid ∧ g.userId = u then
          ({ g with archived := true, updatedAt := now } : GoalRow) else g) ∈
          goals.map (fun r =>
            if r.id = gid ∧ r.userId = u then { r with archived := true, updatedAt := now }
            else r) := hm
      rw [if_pos ⟨hid, huser⟩] at hm'
      exact hm'

/-- Witness for C9 on a concrete database: deleting goal 3 of user 7 with
the task-reparenting cleanup failing still succeeds, archives the goal, and
leaves the task rows untouched. -/
theorem best_effort_cleanup_swallowed_witness :
    ¬(demoGoals.filter (fun r => decide (r.id = 3 ∧ r.userId = 7))).isEmpty = true ∧
    deleteGoal 3 7 11 true demoGoals demoGoalTasks =
      .ok (true, demoGoals.map (fun r =>
        if r.id = 3 ∧ r.userId = 7 then { r with archived := true, updatedAt := 11 }
        else r), demoGoalTasks) :=
  ⟨by decide,
    ((best_effort_cleanup_swallowed 7 11 demoGoalTasks demoGoals).2 3 (by decide)).1⟩

/-- Claim C5: with pairwise-distinct row ids, after Compact the row whose id
is the `k`-th entry of the ascending-prior-position snapshot holds position
exactly `k` — so the partition's positions, taken in ascending order of the
prior positions, are exactly 0..n-1 (the multiset of positions equals the
range of the partition's size, with no gaps or duplicates) — and every
write issued by the loop targets a row whose stored position differed from
the written one: unchanged rows are not written back. -/
theorem compact_reassigns_dense_positions (u : Nat) (q : Quadrant) (now : Nat)
    (tasks : List TaskRow) (hnd : (tasks.map (·.id)).Nodup) :
    (∀ (k : Nat) (hk : k < (compactSnapshot u q tasks).length),
      ∀ r' ∈ compactPositionsInQuadrant u q now false tasks,
        r'.id = ((compactSnapshot u q tasks).get ⟨k, hk⟩).id → r'.position = (k : Int)) ∧
    (((compactPositionsInQuadrant u q now false tasks).filter
        (fun r => decide (r.userId = u ∧ r.quadrant = q))).map (·.position)).Perm
      ((List.range ((compactPositionsInQuadrant u q now false tasks).filter
        (fun r => decide (r.userId = u ∧ r.quadrant = q))).length).map
        (fun (k : Nat) => (k : Int))) ∧
    (∀ w ∈ compactWrites u q tasks,
      ∃ r ∈ compactSnapshot u q tasks, r.id = w.1 ∧ r.position ≠ w.2) := by
  refine ⟨fun k hk => compact_position_at_index u q now hnd k hk, ?_,
    compactWrites_only_changed u q tasks⟩
  rw [compact_partition_length u q now hnd]
  exact compact_partition_perm u q now hnd

/-- Witness for C5 on a concrete database: user 7's Q2 partition holds
positions 0, 2, 3 (a gap); after compaction its positions are a permutation
of 0..2. -/
theorem compact_reassigns_dense_positions_witness :
    ((demoMoveTasks.map (·.id)).Nodup) ∧
    (((compactPositionsInQuadrant 7 Quadrant.q2 99 false demoMoveTasks).filter
        (fun r => decide (r.userId = 7 ∧ r.quadrant = Quadrant.q2))).map (·.position)).Perm
      ((List.range ((compactPositionsInQuadrant 7 Quadrant.q2 99 false demoMoveTasks).filter
        (fun r => decide (r.userId = 7 ∧ r.quadrant = Quadrant.q2))).length).map
        (fun (k : Nat) => (k : Int))) :=
  ⟨by decide,
    (compact_reassigns_dense_positions 7 Quadrant.q2 99 demoMoveTasks (by decide)).2.1⟩

/-- Claim C3: with pairwise-distinct row ids, a successful `move_task`
updates the moved row's quadrant and position to the target values, shifts
every other task of the target partition at or after the target position up
by one, compacts the source partition to positions 0..n-1 when the quadrant
changed, and when source equals target runs only the shift step, leaving
the partition's cardinality unchanged. -/
theorem move_task_partition_semantics (tid : Nat) (mv : TaskMove) (u now : Nat)
    (tasks : List TaskRow) (t row : TaskRow) (tasks' : List TaskRow)
    (hnd : (tasks.map (·.id)).Nodup)
    (hfind : findTask tid u tasks = some t)
    (h : moveTask tid mv u now false false tasks = .ok (row, tasks')) :
    (row.quadrant = mv.quadrant ∧ row.position = mv.position ∧ row.id = tid ∧ row ∈ tasks') ∧
    (∀ r ∈ tasks, r.userId = u → r.quadrant = mv.quadrant → r.id ≠ tid →
      mv.position ≤ r.position →
      { r with position := r.position + 1, updatedAt := now } ∈ tasks') ∧
    (t.quadrant ≠ mv.quadrant →
      ((tasks'.filter (fun r => decide (r.userId = u ∧ r.quadrant = t.quadrant))).map
        (·.position)).Perm
        ((List.range ((tasks'.filter (fun r =>
          decide (r.userId = u ∧ r.quadrant = t.quadrant))).length)).map
          (fun (k : Nat) => (k : Int)))) ∧
    (t.quadrant = mv.quadrant →
      (tasks'.filter (fun r => decide (r.userId = u ∧ r.quadrant = mv.quadrant))).length =
        (tasks.filter (fun r => decide (r.userId = u ∧ r.quadrant = mv.quadrant))).length) := by
  rcases moveTask_ok_inv h with ⟨t', hfind', hguard, hrow, htasks'⟩
  rw [hfind] at hfind'
  obtain rfl : t = t' := Option.some_inj.mp hfind'
  have hts := findTask_spec hfind
  subst hrow
  subst htasks'
  have hpatch := movePatch_fields t.quadrant mv.quadrant mv.position now t
  have hids1 := movePatchedTasks_ids tid mv u now t tasks
  have hnd1 : ((movePatchedTasks tid mv u now t tasks).map (·.id)).Nodup := by
    rw [hids1]
    exact hnd
  have hmem_patched : movePatch t.quadrant mv.quadrant mv.position now t ∈
      movePatchedTasks tid mv u now t tasks := by
    have hm := List.mem_map_of_mem (fun r =>
      if r.id = tid ∧ r.userId = u then movePatch t.quadrant mv.quadrant mv.position now r
      else r) hts.1
    have hm' : (if t.id = tid ∧ t.userId = u then
        movePatch t.quadrant mv.quadrant mv.position now t else t) ∈
        movePatchedTasks tid mv u now t tasks := hm
    rw [if_pos ⟨hts.2.1, hts.2.2⟩] at hm'
    exact hm'
  have hmem_patched_other : ∀ r ∈ tasks, r.id ≠ tid →
      r ∈ movePatchedTasks tid mv u now t tasks := by
    intro r hr hid
    have hm := List.mem_map_of_mem (fun r =>
      if r.id = tid ∧ r.userId = u then movePatch t.quadrant mv.quadrant mv.position now r
      else r) hr
    have hm' : (if r.id = tid ∧ r.userId = u then
        movePatch t.quadrant mv.quadrant mv.position now r else r) ∈
        movePatchedTasks tid mv u now t tasks := hm
    rw [if_neg (fun hc => hid hc.1)] at hm'
    exact hm'
  by_cases hq : t.quadrant = mv.quadrant
  · -- same quadrant: no compaction
    have hfin : moveFinalTasks tid mv u now false false t tasks =
        reorderTasksInQuadrant u mv.quadrant tid mv.position now false
          (movePatchedTasks tid mv u now t tasks) := by
      unfold moveFinalTasks
      rw [if_neg (fun hc => hc hq)]
    have hreq := reorderTasksInQuadrant_eq_map u mv.quadrant tid mv.position now hnd1
    refine ⟨⟨hpatch.2.2.1, hpatch.2.2.2, hpatch.1.trans hts.2.1, ?_⟩, ?_, ?_, ?_⟩
    · rw [hfin, hreq]
      have hm := List.mem_map_of_mem (fun r =>
        if r.userId = u ∧ r.quadrant = mv.quadrant ∧ r.id ≠ tid ∧ mv.position ≤ r.position then
          { r with position := r.position + 1, updatedAt := now }
        else r) hmem_patched
      have hm' : (if (movePatch t.quadrant mv.quadrant mv.position now t).userId = u ∧
          (movePatch t.quadrant mv.quadrant mv.position now t).quadrant = mv.quadrant ∧
          (movePatch t.quadrant mv.quadrant mv.position now t).id ≠ tid ∧
          mv.position ≤ (movePatch t.quadrant mv.quadrant mv.position now t).position then
          { movePatch t.quadrant mv.quadrant mv.position now t with
              position := (movePatch t.quadrant mv.quadrant mv.position now t).position + 1,
              updatedAt := now }
        else movePatch t.quadrant mv.quadrant mv.position now t) ∈
          (movePatchedTasks tid mv u now t tasks).map (fun r =>
            if r.userId = u ∧ r.quadrant = mv.quadrant ∧ r.id ≠ tid ∧
                mv.position ≤ r.position then
              { r with position := r.position + 1, updatedAt := now }
            else r) := hm
      rw [if_neg (fun hc => hc.2.2.1 (hpatch.1.trans hts.2.1))] at hm'
      exact hm'
    · intro r hr hu hqr hid hpos
      rw [hfin, hreq]
      have hm := List.mem_map_of_mem (fun r =>
        if r.userId = u ∧ r.quadrant = mv.quadrant ∧ r.id ≠ tid ∧ mv.position ≤ r.position then
          { r with position := r.position + 1, updatedAt := now }
        else r) (hmem_patched_other r hr hid)
      have hm' : (if r.userId = u ∧ r.quadrant = mv.quadrant ∧ r.id ≠ tid ∧
          mv.position ≤ r.position then
          { r with position := r.position + 1, updatedAt := now }
        else r) ∈
          (movePatchedTasks tid mv u now t tasks).map (fun r =>
            if r.userId = u ∧ r.quadrant = mv.quadrant ∧ r.id ≠ tid ∧
                mv.position ≤ r.position then
              { r with position := r.position + 1, updatedAt := now }
            else r) := hm
      rw [if_pos ⟨hu, hqr, hid, hpos⟩] at hm'
      exact hm'
    · intro hneq
      exact absurd hq hneq
    · intro _
      rw [hfin, hreq]
      have presR : ∀ r ∈ movePatchedTasks tid mv u now t tasks,
          (fun r : TaskRow => decide (r.userId = u ∧ r.quadrant = mv.quadrant))
            ((fun r : TaskRow =>
              if r.userId = u ∧ r.quadrant = mv.quadrant ∧ r.id ≠ tid ∧
                  mv.position ≤ r.position then
                { r with position := r.position + 1, updatedAt := now }
              else r) r) =
          (fun r : TaskRow => decide (r.userId = u ∧ r.quadrant = mv.quadrant)) r := by
        intro r _
        by_cases hc : r.userId = u ∧ r.quadrant = mv.quadrant ∧ r.id ≠ tid ∧
            mv.position ≤ r.position
        · simp only [if_pos hc]
        · simp only [if_neg hc]
      have presG : ∀ r ∈ tasks,
          (fun r : TaskRow => decide (r.userId = u ∧ r.quadrant = mv.quadrant))
            ((fun r : TaskRow =>
              if r.id = tid ∧ r.userId = u then
                movePatch t.quadrant mv.quadrant mv.position now r
              else r) r) =
          (fun r : TaskRow => decide (r.userId = u ∧ r.quadrant = mv.quadrant)) r := by
        intro r hr
        by_cases hc : r.id = tid ∧ r.userId = u
        · simp only [if_pos hc]
          have hrt : r = t := eq_of_mem_of_id_eq hnd hr hts.1 (hc.1.trans hts.2.1.symm)
          have hdp : decide ((movePatch t.quadrant mv.quadrant mv.position now r).userId = u ∧
              (movePatch t.quadrant mv.quadrant mv.position now r).quadrant = mv.quadrant) =
              true :=
            decide_eq_true ⟨by
              rw [(movePatch_fields t.quadrant mv.quadrant mv.position now r).2.1]
              exact hc.2,
              (movePatch_fields t.quadrant mv.quadrant mv.position now r).2.2.1⟩
          have hdq : decide (r.userId = u ∧ r.quadrant = mv.quadrant) = true :=
            decide_eq_true ⟨hc.2, by rw [hrt]; exact hq⟩
          rw [hdp, hdq]
        · simp only [if_neg hc]
      calc (((movePatchedTasks tid mv u now t tasks).map (fun r =>
            if r.userId = u ∧ r.quadrant = mv.quadrant ∧ r.id ≠ tid ∧
                mv.position ≤ r.position then
              { r with position := r.position + 1, updatedAt := now }
            else r)).filter
              (fun r => decide (r.userId = u ∧ r.quadrant = mv.quadrant))).length
          = (((movePatchedTasks tid mv u now t tasks).filter
              (fun r => decide (r.userId = u ∧ r.quadrant = mv.quadrant))).map (fun r =>
            if r.userId = u ∧ r.quadrant = mv.quadrant ∧ r.id ≠ tid ∧
                mv.position ≤ r.position then
              { r with position := r.position + 1, updatedAt := now }
            else r)).length := by rw [filter_map_comm presR]
        _ = ((movePatchedTasks tid mv u now t tasks).filter
              (fun r => decide (r.userId = u ∧ r.quadrant = mv.quadrant))).length := by
            rw [List.length_map]
        _ = (((tasks.map (fun r =>
              if r.id = tid ∧ r.userId = u then
                movePatch t.quadrant mv.quadrant mv.position now r
              else r)).filter
              (fun r => decide (r.userId = u ∧ r.quadrant = mv.quadrant)))).length := rfl
        _ = ((tasks.filter
              (fun r => decide (r.userId = u ∧ r.quadrant = mv.quadrant))).map (fun r =>
              if r.id = tid ∧ r.userId = u then
                movePatch t.quadrant mv.quadrant mv.position now r
              else r)).length := by rw [filter_map_comm presG]
        _ = (tasks.filter
              (fun r => decide (r.userId = u ∧ r.quadrant = mv.quadrant))).length := by
            rw [List.length_map]
  · -- quadrant change: compaction on the source
    have hne : t.quadrant ≠ mv.quadrant := hq
    have hfin : moveFinalTasks tid mv u now false false t tasks =
        reorderTasksInQuadrant u mv.quadrant tid mv.position now false
          (compactPositionsInQuadrant u t.quadrant now false
            (movePatchedTasks tid mv u now t tasks)) := by
      unfold moveFinalTasks
      rw [if_pos hne]
    have hnd2 : ((compactPositionsInQuadrant u t.quadrant now false
        (movePatchedTasks tid mv u now t tasks)).map (·.id)).Nodup := by
      rw [compact_ids u t.quadrant now hnd1, hids1]
      exact hnd
    have hreq := reorderTasksInQuadrant_eq_map u mv.quadrant tid mv.position now hnd2
    have hmem_patch_mid : movePatch t.quadrant mv.quadrant mv.position now t ∈
        compactPositionsInQuadrant u t.quadrant now false
          (movePatchedTasks tid mv u now t tasks) := by
      refine compact_preserves_row hnd1 hmem_patched (fun hc => ?_)
      rw [hpatch.2.2.1] at hc
      exact hne hc.2.symm
    refine ⟨⟨hpatch.2.2.1, hpatch.2.2.2, hpatch.1.trans hts.2.1, ?_⟩, ?_, ?_, ?_⟩
    · rw [hfin, hreq]
      have hm := List.mem_map_of_mem (fun r =>
        if r.userId = u ∧ r.quadrant = mv.quadrant ∧ r.id ≠ tid ∧ mv.position ≤ r.position then
          { r with position := r.position + 1, updatedAt := now }
        else r) hmem_patch_mid
      have hm' : (if (movePatch t.quadrant mv.quadrant mv.position now t).userId = u ∧
          (movePatch t.quadrant mv.quadrant mv.position now t).quadrant = mv.quadrant ∧
          (movePatch t.quadrant mv.quadrant mv.position now t).id ≠ tid ∧
          mv.position ≤ (movePatch t.quadrant mv.quadrant mv.position now t).position then
          { movePatch t.quadrant mv.quadrant mv.position now t with
              position := (movePatch t.quadrant mv.quadrant mv.position now t).position + 1,
              updatedAt := now }
        else movePatch t.quadrant mv.quadrant mv.position now t) ∈
          (compactPositionsInQuadrant u t.quadrant now false
            (movePatchedTasks tid mv u now t tasks)).map (fun r =>
            if r.userId = u ∧ r.quadrant = mv.quadrant ∧ r.id ≠ tid ∧
                mv.position ≤ r.position then
              { r with position := r.position + 1, updatedAt := now }
            else r) := hm
      rw [if_neg (fun hc => hc.2.2.1 (hpatch.1.trans hts.2.1))] at hm'
      exact hm'
    · intro r hr hu hqr hid hpos
      rw [hfin, hreq]
      have hr1 := hmem_patched_other r hr hid
      have hr2 : r ∈ compactPositionsInQuadrant u t.quadrant now false
          (movePatchedTasks tid mv u now t tasks) :=
        compact_preserves_row hnd1 hr1 (fun hc => hne (hc.2.symm.trans hqr))
      have hm := List.mem_map_of_mem (fun r =>
        if r.userId = u ∧ r.quadrant = mv.quadrant ∧ r.id ≠ tid ∧ mv.position ≤ r.position then
          { r with position := r.position + 1, updatedAt := now }
        else r) hr2
      have hm' : (if r.userId = u ∧ r.quadrant = mv.quadrant ∧ r.id ≠ tid ∧
          mv.position ≤ r.position then
          { r with position := r.position + 1, updatedAt := now }
        else r) ∈
          (compactPositionsInQuadrant u t.quadrant now false
            (movePatchedTasks tid mv u now t tasks)).map (fun r =>
            if r.userId = u ∧ r.quadrant = mv.quadrant ∧ r.id ≠ tid ∧
                mv.position ≤ r.position then
              { r with position := r.position + 1, updatedAt := now }
            else r) := hm
      rw [if_pos ⟨hu, hqr, hid, hpos⟩] at hm'
      exact hm'
    · intro _
      rw [hfin, hreq]
      have presR : ∀ r ∈ compactPositionsInQuadrant u t.quadrant now false
            (movePatchedTasks tid mv u now t tasks),
          (fun r : TaskRow => decide (r.userId = u ∧ r.quadrant = t.quadrant))
            ((fun r : TaskRow =>
              if r.userId = u ∧ r.quadrant = mv.quadrant ∧ r.id ≠ tid ∧
                  mv.position ≤ r.position then
                { r with position := r.position + 1, updatedAt := now }
              else r) r) =
          (fun r : TaskRow => decide (r.userId = u ∧ r.quadrant = t.quadrant)) r := by
        intro r _
        by_cases hc : r.userId = u ∧ r.quadrant = mv.quadrant ∧ r.id ≠ tid ∧
            mv.position ≤ r.position
        · simp only [if_pos hc]
        · simp only [if_neg hc]
      rw [filter_map_comm presR]
      have hunch : ((compactPositionsInQuadrant u t.quadrant now false
          (movePatchedTasks tid mv u now t tasks)).filter
            (fun r => decide (r.userId = u ∧ r.quadrant = t.quadrant))).map (fun r =>
            if r.userId = u ∧ r.quadrant = mv.quadrant ∧ r.id ≠ tid ∧
                mv.position ≤ r.position then
              { r with position := r.position + 1, updatedAt := now }
            else r) =
          (compactPositionsInQuadrant u t.quadrant now false
            (movePatchedTasks tid mv u now t tasks)).filter
              (fun r => decide (r.userId = u ∧ r.quadrant = t.quadrant)) := by
        refine map_id_on (fun r hrf => ?_)
        have hprops := of_decide_eq_true (List.mem_filter.mp hrf).2
        have hcond : ¬(r.userId = u ∧ r.quadrant = mv.quadrant ∧ r.id ≠ tid ∧
            mv.position ≤ r.position) := fun hc => hne (hprops.2.symm.trans hc.2.1)
        simp only [if_neg hcond]
      rw [hunch, compact_partition_length u t.quadrant now hnd1]
      exact compact_partition_perm u t.quadrant now hnd1
    · intro heq
      exact absurd heq hne

unseal List.merge List.mergeSort in
/-- Witness for C3 on a concrete database: moving task 1 from Q2 (holding
positions 0, 2, 3) to Q1 (holding positions 0, 1) at position 1 returns the
moved row at Q1 position 1, present in the final state. -/
theorem move_task_partition_semantics_witness :
    moveTask 1 ⟨Quadrant.q1, 1, none⟩ 7 50 false false demoMoveTasks =
      .ok (demoMovedRow, demoMovedTasks) ∧
    (demoMovedRow.quadrant = Quadrant.q1 ∧ demoMovedRow.position = 1 ∧
      demoMovedRow.id = 1 ∧ demoMovedRow ∈ demoMovedTasks) :=
  ⟨by rfl,
    (move_task_partition_semantics 1 ⟨Quadrant.q1, 1, none⟩ 7 50 demoMoveTasks
      (mkRow 1 7 Quadrant.q2 0) demoMovedRow demoMovedTasks
      (by decide) (by rfl) (by rfl)).1⟩

end QuadrantPlanner
